import Mathlib

/-!
Verification of the metadata-translation core of the `booktag` application
(`booktag/mutagenfacade.py`, `booktag/streams.py`, `booktag/constants.py`,
`booktag/settings.py`).

The development shallowly embeds the Python code into Lean:

* Python values flowing through the translation rules are modelled by the
  closed universe `PyVal` (strings, ints, byte blobs, lists, tuples, ID3
  frames, embedded pictures, decoded images, `None`).
* The mutagen tag containers and the canonical `Metadata` record are both
  association lists from string keys to `PyVal`, mirroring the dict-like
  interfaces both expose.  `Metadata.setItem` embeds
  `streams.Metadata.__setitem__` together with its per-tag normalizers
  `_list_frame` and `_natural_int`.
* Exceptions are modelled with `Except`; the distinguished `SkipTagError`
  used by the rules as control flow is the `PyErr.skipTag` constructor.

External collaborators (the mutagen container internals, the pillow image
decoder, base64) are modelled at the boundary described by the code that
calls them: image decoding is an explicit `decode` function parameter, and
the ID3 `add`/`getall`/HashKey behaviour is embedded directly where the
facade relies on it.
-/

set_option autoImplicit false

namespace Booktag

/-- Decoded image at the pillow boundary (`streams.ImageStream` as produced
by `ImageStream.from_file`): raw bytes, a format name, and dimensions. -/
structure ImgStream where
  data : List Nat
  format : String
  width : Nat
  height : Nat
  deriving Repr, DecidableEq

/-- ASCII lowercasing of one character (`str.lower` on the format names in
play). -/
def lowerChar (c : Char) : Char :=
  if 'A' ≤ c ∧ c ≤ 'Z' then Char.ofNat (c.toNat + 32) else c

/-- `str.lower()`. -/
def pyLower (s : String) : String := ⟨s.toList.map lowerChar⟩

/-- `ImageStream.mime`: `'image/{format}'.lower()` as set in
`ImageStream.__init__` / `_export_pil`. -/
def ImgStream.mime (i : ImgStream) : String := "image/" ++ pyLower i.format

/-- Embedded-picture object at the mutagen boundary (an `id3.APIC` frame, an
`mp4.MP4Cover`, or a `flac.Picture`).  Each optional field models the
presence or absence of the corresponding Python attribute, matching the
`getattr(pic, 'type', ...)`, `getattr(pic, 'data', pic)` and
`hasattr(x, 'desc')` probes in `mutagenfacade.py`. -/
structure Pic where
  ptype : Option Int
  imageformat : Option Int
  desc : Option String
  data : Option (List Nat)
  mime : String
  deriving Repr, DecidableEq

/-- Universe of Python values moved between tag containers by the facade. -/
inductive PyVal where
  | none
  | str (s : String)
  | int (n : Int)
  | bytes (b : List Nat)
  | list (xs : List PyVal)
  | tuple (xs : List PyVal)
  /-- A mutagen ID3 frame: class name, `text` payload, optional `desc`
  attribute (only `COMM` frames carry one in the facade's mappings). -/
  | frame (cls : String) (payload : PyVal) (desc : Option String)
  | pic (p : Pic)
  | img (i : ImgStream)
  /-- A mutagen `ID3TimeStamp` (only its `year` attribute is ever read). -/
  | stamp (year : Int)

/-- Python truthiness (`bool(value)`) for the values the facade tests with
`if value:` — empty strings/lists/tuples, `0` and `None` are falsy;
`ImageStream.__bool__` is `data is not None and len(data)`; mutagen frame
and picture objects fall back to the default truthy `object.__bool__`. -/
def pyTruthy : PyVal → Bool
  | .none => false
  | .str s => s ≠ ""
  | .int n => n ≠ 0
  | .bytes b => !b.isEmpty
  | .list xs => !xs.isEmpty
  | .tuple xs => !xs.isEmpty
  | .frame _ _ _ => true
  | .pic _ => true
  | .img i => !i.data.isEmpty
  | .stamp _ => true

/-- Python's `value is None` test. -/
def PyVal.isNone : PyVal → Bool
  | .none => true
  | _ => false

mutual

/-- Python `str(value)` for the values reaching `ToStr`/`AlbumsortTag`.
Strings and integers (the only cases the mappings exercise: every value fed
to `str()` has first passed `ToInt` or is a `Metadata` string/int field) use
the exact Python rendering; the remaining constructors get a fixed
bracketed/tagged rendering standing in for Python's `repr`-based fallback. -/
def pyStr : PyVal → String
  | .none => "None"
  | .str s => s
  | .int n => toString n
  | .bytes _ => "<bytes>"
  | .list xs => "[" ++ pyStrList xs ++ "]"
  | .tuple xs => "(" ++ pyStrList xs ++ ")"
  | .frame cls _ _ => "<frame " ++ cls ++ ">"
  | .pic _ => "<picture>"
  | .img _ => "<image>"
  | .stamp y => toString y

/-- Comma-joined rendering of list elements, used by `pyStr`. -/
def pyStrList : List PyVal → String
  | [] => ""
  | [x] => pyStr x
  | x :: rest => pyStr x ++ ", " ++ pyStrList rest

end

/-- Python `str.strip()` on the underlying character list: drop leading and
trailing whitespace. -/
def pyStripChars (cs : List Char) : List Char :=
  ((cs.dropWhile Char.isWhitespace).reverse.dropWhile Char.isWhitespace).reverse

/-- Python `str.strip()`. -/
def pyStrip (s : String) : String := ⟨pyStripChars s.toList⟩

/-- Integer literal parsing as done by Python's `int(str)`: optional
surrounding whitespace, optional sign, then a non-empty run of digits. -/
def parseIntPy (s : String) : Option Int :=
  let core := pyStripChars s.toList
  let (sign, digits) :=
    match core with
    | '+' :: rest => ((1 : Int), rest)
    | '-' :: rest => ((-1 : Int), rest)
    | rest => ((1 : Int), rest)
  if digits ≠ [] ∧ digits.all Char.isDigit then
    some (sign * (digits.foldl (fun acc c => acc * 10 + (c.toNat - '0'.toNat)) 0 : Nat))
  else
    Option.none

/-- Python exception classes that the facade raises or catches.
`skipTag` is the facade's own `SkipTagError`; `attrErr name` is the
`AttributeError` produced when a module attribute called `name` is missing
(`booktag.exceptions` does not define several error classes the facade
references). -/
inductive PyErr where
  | typeErr
  | valueErr
  | skipTag
  | attrErr (name : String)
  deriving Repr, DecidableEq

/-- Python `int(value)`: identity on ints, literal parsing on strings
(`ValueError` on failure), `TypeError` on everything else the facade can
feed it. -/
def pyInt : PyVal → Except PyErr Int
  | .int n => .ok n
  | .str s =>
    match parseIntPy s with
    | some n => .ok n
    | Option.none => .error .valueErr
  | _ => .error .typeErr

/-- Python iteration `list(value)` for the value shapes the facade iterates:
lists and tuples yield their elements, strings their characters, byte blobs
their integers; everything else is not iterable. -/
def pyIterate : PyVal → Option (List PyVal)
  | .list xs => some xs
  | .tuple xs => some xs
  | .str s => some (s.toList.map (fun c => .str (String.singleton c)))
  | .bytes b => some (b.map (fun n => .int n))
  | _ => Option.none

/-- `streams._list_frame`: `[value] if isinstance(value, (str, bytes)) else
list(value)`, with `TypeError` from `list()` producing `[value]`. -/
def listFrame (v : PyVal) : List PyVal :=
  match v with
  | .str _ => [v]
  | .bytes _ => [v]
  | v =>
    match pyIterate v with
    | some xs => xs
    | Option.none => [v]

/-- `streams._natural_int`: `int(value)`, with `0` turned into `None` and
negative results raising `ValueError`. -/
def naturalInt (v : PyVal) : Except PyErr (Option PyVal) :=
  match pyInt v with
  | .error e => .error e
  | .ok n =>
    if n = 0 then .ok Option.none
    else if n < 0 then .error .valueErr
    else .ok (some (.int n))

/-- Both mutagen tag containers and `streams.Metadata` are modelled as
association lists from string keys to values, mirroring their dict-like
get/set/delete interface. -/
abbrev Tags := List (String × PyVal)

/-- Dictionary lookup `d.get(k, None)`. -/
def lookupT (k : String) : Tags → Option PyVal
  | [] => Option.none
  | (k₀, v) :: rest => if k₀ = k then some v else lookupT k rest

/-- Dictionary deletion with a swallowed `KeyError` (`del d[k]` wrapped in
`try/except KeyError: pass`, as in `Metadata.__delitem__` and
`AbstractMapRule.set_tag`). -/
def eraseT (k : String) (t : Tags) : Tags := t.filter (fun e => e.1 ≠ k)

/-- Dictionary assignment `d[k] = v`: replaces the value in place when the
key exists, otherwise appends (Python dicts preserve insertion order). -/
def setT (k : String) (v : PyVal) : Tags → Tags
  | [] => [(k, v)]
  | (k₀, v₀) :: rest => if k₀ = k then (k, v) :: rest else (k₀, v₀) :: setT k v rest

/-- The canonical metadata record of `streams.Metadata`. -/
abbrev Metadata := Tags

/-- Tag names normalized with `str` in `Metadata.mapping`. -/
def strTags : List String := ["album", "comment", "grouping", "label", "title"]

/-- Tag names normalized with `_list_frame` in `Metadata.mapping`. -/
def listTags : List String := ["albumartist", "artist", "composer", "genre"]

/-- Tag names normalized with `_natural_int` in `Metadata.mapping`. -/
def natTags : List String :=
  ["albumsort", "date", "discnum", "disctotal", "originaldate", "tracknum", "tracktotal"]

/-- `streams.Metadata.__setitem__`: a non-`None` value assigned to a key of
`Metadata.mapping` is passed through that key's normalizer; a `None` value
(original or produced by `_natural_int` on zero) deletes the key; other
keys (such as `cover`) store the value untouched.  Normalizer exceptions
(`TypeError`/`ValueError` from `int()`, `ValueError` on negatives)
propagate to the caller. -/
def Metadata.setItem (m : Metadata) (k : String) (v : PyVal) : Except PyErr Metadata :=
  if v.isNone then
    .ok (eraseT k m)
  else if k ∈ strTags then
    .ok (setT k (.str (pyStr v)) m)
  else if k ∈ listTags then
    .ok (setT k (.list (listFrame v)) m)
  else if k ∈ natTags then
    match naturalInt v with
    | .error e => .error e
    | .ok Option.none => .ok (eraseT k m)
    | .ok (some w) => .ok (setT k w m)
  else
    .ok (setT k v m)

/-- A sequence of `metadata[k] = v` assignments, threading the exceptions of
`Metadata.__setitem__`. -/
def applyAssignments (m : Metadata) : List (String × PyVal) → Except PyErr Metadata
  | [] => .ok m
  | (k, v) :: rest =>
    match Metadata.setItem m k v with
    | .error e => .error e
    | .ok m₁ => applyAssignments m₁ rest

/-- Shape invariant actually maintained by `Metadata.__setitem__`: `str`
tags hold strings, `_list_frame` tags hold lists, `_natural_int` tags hold
strictly positive integers. -/
def MetaInv (m : Metadata) : Prop :=
  ∀ k v, (k, v) ∈ m →
    (k ∈ strTags → ∃ s, v = PyVal.str s) ∧
    (k ∈ listTags → ∃ xs, v = PyVal.list xs) ∧
    (k ∈ natTags → ∃ n : Int, v = PyVal.int n ∧ 0 < n)

theorem mem_setT {k : String} {v : PyVal} {m : Tags} {e : String × PyVal} :
    e ∈ setT k v m → e = (k, v) ∨ e ∈ m := by
  induction m with
  | nil =>
    intro h
    simp only [setT, List.mem_singleton] at h
    exact Or.inl h
  | cons hd tl ih =>
    rcases hd with ⟨k₀, v₀⟩
    intro h
    simp only [setT] at h
    by_cases hk : k₀ = k
    · rw [if_pos hk] at h
      rcases List.mem_cons.mp h with h | h
      · exact Or.inl h
      · exact Or.inr (List.mem_cons_of_mem _ h)
    · rw [if_neg hk] at h
      rcases List.mem_cons.mp h with h | h
      · exact Or.inr (h ▸ List.mem_cons_self _ _)
      · rcases ih h with h₁ | h₁
        · exact Or.inl h₁
        · exact Or.inr (List.mem_cons_of_mem _ h₁)

theorem mem_eraseT {k : String} {m : Tags} {e : String × PyVal}
    (h : e ∈ eraseT k m) : e ∈ m :=
  List.mem_of_mem_filter h

theorem natTags_value_pos {v : PyVal} {w : PyVal}
    (h : naturalInt v = .ok (some w)) : ∃ n : Int, w = PyVal.int n ∧ 0 < n := by
  unfold naturalInt at h
  split at h
  · exact absurd h (by simp)
  · rename_i n _
    split at h
    · exact absurd h (by simp)
    · rename_i h0
      split at h
      · exact absurd h (by simp)
      · rename_i hneg
        simp only [Except.ok.injEq, Option.some.injEq] at h
        exact ⟨n, h.symm, by omega⟩

theorem strTags_disj {k : String} (h : k ∈ strTags) : k ∉ listTags ∧ k ∉ natTags := by
  fin_cases h <;> exact ⟨by decide, by decide⟩

theorem listTags_not_natTags {k : String} (h : k ∈ listTags) : k ∉ natTags := by
  fin_cases h <;> decide

theorem metaInv_setT {m : Metadata} {k : String} {v : PyVal}
    (hinv : MetaInv m)
    (hstr : k ∈ strTags → ∃ s, v = PyVal.str s)
    (hlist : k ∈ listTags → ∃ xs, v = PyVal.list xs)
    (hnat : k ∈ natTags → ∃ n : Int, v = PyVal.int n ∧ 0 < n) :
    MetaInv (setT k v m) := by
  intro k₀ v₀ hmem
  rcases mem_setT hmem with he | he
  · obtain ⟨hk, hv⟩ := Prod.ext_iff.mp he
    simp only at hk hv
    subst hk
    subst hv
    exact ⟨hstr, hlist, hnat⟩
  · exact hinv k₀ v₀ he

theorem metaInv_eraseT {m : Metadata} {k : String} (hinv : MetaInv m) :
    MetaInv (eraseT k m) :=
  fun k₀ v₀ hmem => hinv k₀ v₀ (mem_eraseT hmem)

theorem metaInv_setItem {m m₁ : Metadata} {k : String} {v : PyVal}
    (hinv : MetaInv m) (h : Metadata.setItem m k v = .ok m₁) : MetaInv m₁ := by
  classical
  unfold Metadata.setItem at h
  by_cases hnone : v.isNone
  · rw [if_pos hnone] at h
    cases h
    exact metaInv_eraseT hinv
  · rw [if_neg hnone] at h
    by_cases hs : k ∈ strTags
    · rw [if_pos hs] at h
      cases h
      exact metaInv_setT hinv (fun _ => ⟨_, rfl⟩)
        (fun hq => absurd hq (strTags_disj hs).1)
        (fun hq => absurd hq (strTags_disj hs).2)
    · rw [if_neg hs] at h
      by_cases hl : k ∈ listTags
      · rw [if_pos hl] at h
        cases h
        exact metaInv_setT hinv (fun hq => absurd hq hs) (fun _ => ⟨_, rfl⟩)
          (fun hq => absurd hq (listTags_not_natTags hl))
      · rw [if_neg hl] at h
        by_cases hn : k ∈ natTags
        · rw [if_pos hn] at h
          split at h
          · exact absurd h (by simp)
          · cases h
            exact metaInv_eraseT hinv
          · rename_i w hni
            cases h
            exact metaInv_setT hinv (fun hq => absurd hq hs) (fun hq => absurd hq hl)
              (fun _ => natTags_value_pos hni)
        · rw [if_neg hn] at h
          cases h
          exact metaInv_setT hinv (fun hq => absurd hq hs) (fun hq => absurd hq hl)
            (fun hq => absurd hq hn)

theorem metaInv_applyAssignments {ops : List (String × PyVal)} :
    ∀ {m₀ m : Metadata}, MetaInv m₀ → applyAssignments m₀ ops = .ok m → MetaInv m := by
  induction ops with
  | nil =>
    intro m₀ m hinv h
    cases h
    exact hinv
  | cons hd tl ih =>
    rcases hd with ⟨k, v⟩
    intro m₀ m hinv h
    simp only [applyAssignments] at h
    split at h
    · exact absurd h (by simp)
    · rename_i m₁ hset
      exact ih (metaInv_setItem hinv hset) h

theorem metaInv_nil : MetaInv [] := by
  intro k v h
  exact absurd h (List.not_mem_nil _)

theorem eraseT_eq_of_lookup_none {k : String} {m : Tags}
    (h : lookupT k m = Option.none) : eraseT k m = m := by
  induction m with
  | nil => rfl
  | cons hd tl ih =>
    rcases hd with ⟨k₀, v₀⟩
    by_cases hk : k₀ = k
    · simp [lookupT, hk] at h
    · simp only [lookupT, if_neg hk] at h
      have htl : eraseT k tl = tl := ih h
      simp only [eraseT, List.filter_cons] at htl ⊢
      rw [if_pos (by simp [hk]), htl]

/-- C5 counterexample: `Metadata.__setitem__` normalizes string tags with the
bare `str` constructor, which neither trims whitespace nor rejects the empty
string — assigning `"  x  "` to `album` stores it untrimmed, and assigning
`""` stores the empty string instead of removing the key. -/
theorem metadata_stores_untrimmed_and_empty_strings :
    Metadata.setItem [] "album" (PyVal.str "") = .ok [("album", PyVal.str "")]
    ∧ Metadata.setItem [] "album" (PyVal.str "  x  ")
        = .ok [("album", PyVal.str "  x  ")]
    ∧ pyStrip "  x  " ≠ "  x  "
    ∧ ("" : String).isEmpty = true :=
  ⟨rfl, rfl, by decide, rfl⟩

/-- C5 (amended): every value stored in a `Metadata` record has passed the
per-tag normalizer of `Metadata.mapping`, so after any sequence of
assignments string tags hold strings (exactly `str(value)`, not trimmed and
possibly empty), list tags hold lists (possibly empty, elements not
coerced), and numeric tags hold strictly positive integers (zero deletes
the key, negatives raise `ValueError`); assigning `None` removes the key. -/
theorem metadata_assignment_invariant :
    ∀ (ops : List (String × PyVal)) (m : Metadata),
      applyAssignments [] ops = .ok m → MetaInv m :=
  fun _ _ h => metaInv_applyAssignments metaInv_nil h

/-- Witness for the amended C5 invariant at a concrete assignment sequence. -/
theorem metadata_assignment_invariant_witness :
    MetaInv [("album", PyVal.str "  x  "), ("tracknum", PyVal.int 3)] :=
  metadata_assignment_invariant
    [("album", PyVal.str "  x  "), ("tracknum", PyVal.str "3")] _ rfl

/-- C10: assigning `None` to a `Metadata` record deletes the key when it is
present and is a no-op when it is absent, whatever the key (canonical or
not); neither the assignment nor deleting an absent key can raise, because
`Metadata.__setitem__` skips the normalizer for `None` and
`Metadata.__delitem__` swallows `KeyError`. -/
theorem metadata_none_assignment_deletes :
    ∀ (m : Metadata) (k : String),
      Metadata.setItem m k PyVal.none = .ok (eraseT k m)
      ∧ (lookupT k m = Option.none → eraseT k m = m) :=
  fun _ _ => ⟨rfl, eraseT_eq_of_lookup_none⟩

/-- Witness for C10 at a concrete record and absent key. -/
theorem metadata_none_assignment_deletes_witness :
    Metadata.setItem [("album", PyVal.str "x")] "date" PyVal.none
      = .ok (eraseT "date" [("album", PyVal.str "x")])
    ∧ eraseT "date" [("album", PyVal.str "x")] = [("album", PyVal.str "x")] :=
  ⟨(metadata_none_assignment_deletes [("album", PyVal.str "x")] "date").1,
    (metadata_none_assignment_deletes [("album", PyVal.str "x")] "date").2 rfl⟩

/-! ## Filters (`mutagenfacade.AbstractFilter` subclasses)

A filter is a function from a value to a value; returning `Option.none`
models both "the filter returned `None`" and "the filter raised
`SkipTagError`", which coincide inside a chain: `AbstractMapRule._filter`
raises `SkipTagError` as soon as a filter returns `None`. -/

/-- A single value filter. -/
abbrev Filt := PyVal → Option PyVal

/-- `AbstractMapRule._filter`: feed the value through each filter in order,
aborting with `SkipTagError` when one of them yields `None`. -/
def applyChain : List Filt → PyVal → Option PyVal
  | [], v => some v
  | f :: fs, v =>
    match f v with
    | Option.none => Option.none
    | some v₁ => applyChain fs v₁

/-- `FirstItem`: first element of a list or tuple (`None` when empty),
identity on everything else. -/
def firstItem : Filt := fun v =>
  match v with
  | .list [] => Option.none
  | .tuple [] => Option.none
  | .list (x :: _) => some x
  | .tuple (x :: _) => some x
  | v => some v

/-- `ToInt(notzero=…, positive=…)`: `int(value)` with failures becoming
`None`; the `notzero` option maps a zero result to `None`, the `positive`
option maps a negative result to `None`. -/
def toInt (notzero positive : Bool) : Filt := fun v =>
  match pyInt v with
  | .error _ => Option.none
  | .ok n =>
    if notzero ∧ n = 0 then Option.none
    else if positive ∧ n < 0 then Option.none
    else some (.int n)

/-- `sep.join(str(x) for x in value)`. -/
def sepJoin (sep : String) (xs : List PyVal) : String :=
  String.intercalate sep (xs.map pyStr)

/-- `ToStr(sep=…, notempty=…)`: join sequences with `sep` (default a single
space), stringify and strip, and with `notempty` (the default) turn an
empty result into `None`. -/
def toStr (sep : String) (notempty : Bool) : Filt := fun v =>
  let s :=
    match v with
    | .list xs => sepJoin sep xs
    | .tuple xs => sepJoin sep xs
    | v => pyStr v
  let s := pyStrip s
  if notempty ∧ s = "" then Option.none else some (.str s)

/-- The element filter of `ToList`: `x is not None and x != ''`. -/
def keepInList (x : PyVal) : Bool :=
  match x with
  | .none => false
  | .str "" => false
  | _ => true

/-- `ToList(notempty=…)`: wrap the value into a list exactly as
`_list_frame` does, drop `None` and `''` elements, and with `notempty` (the
default) turn an empty result into `None`. -/
def toList (notempty : Bool) : Filt := fun v =>
  let xs := (listFrame v).filter keepInList
  if notempty ∧ xs.isEmpty then Option.none else some (.list xs)

/-- `ToListFirstTuple`: `ToList`, then wrap the result as `[tuple(value)]`. -/
def toListFirstTuple : Filt := fun v =>
  match toList true v with
  | some (.list xs) => some (.list [.tuple xs])
  | some w => some w
  | Option.none => Option.none

/-- Structural split of a character list at every separator character,
keeping empty pieces, as `re.split` does with an alternation of the
escaped separators (all separators in the mappings are single
characters). -/
def splitChars (p : Char → Bool) : List Char → List (List Char)
  | [] => [[]]
  | c :: rest =>
    let r := splitChars p rest
    if p c then [] :: r
    else
      match r with
      | [] => [[c]]
      | h :: t => (c :: h) :: t

/-- `re.split(pattern, s)` for an alternation of single characters. -/
def pySplit (p : Char → Bool) (s : String) : List String :=
  (splitChars p s.toList).map (fun cs => ⟨cs⟩)

/-- `SplitStr(sep=…, notempty=…)`: run `ToList(notempty=False)`, split each
element's string form on any separator, strip the pieces, drop empty
pieces, and with `notempty` (the default) turn an empty result into
`None`. -/
def splitStr (seps : List Char) (notempty : Bool) : Filt := fun v =>
  let items :=
    match toList false v with
    | some (.list xs) => xs
    | _ => []
  let pieces :=
    (items.map (fun item => (pySplit (fun c => c ∈ seps) (pyStr item)).map pyStrip)).flatten
  let pieces := pieces.filter (fun s => s ≠ "")
  if notempty ∧ pieces = [] then Option.none
  else some (.list (pieces.map PyVal.str))

/-- Trailing elements that evaluate to false, dropped from the right. -/
def dropTrailingFalsy (xs : List PyVal) : List PyVal :=
  ((xs.reverse.dropWhile (fun x => !pyTruthy x))).reverse

/-- `RStrip` (with the default `key=None`): slice the sequence up to its
last truthy element, raising `SkipTagError` when no element is truthy or
the value has no length. -/
def rStrip : Filt := fun v =>
  match v with
  | .list xs =>
    match dropTrailingFalsy xs with
    | [] => Option.none
    | ys => some (.list ys)
  | .tuple xs =>
    match dropTrailingFalsy xs with
    | [] => Option.none
    | ys => some (.tuple ys)
  | .str s => if s = "" then Option.none else some (.str s)
  | .bytes b =>
    match (b.reverse.dropWhile (fun n => n = 0)).reverse with
    | [] => Option.none
    | ys => some (.bytes ys)
  | _ => Option.none

/-- `ID3In(cls=…, …)`: wrap the value as the `text` payload of an ID3 frame
of class `cls`; only the `COMM` rule passes a `desc` default. -/
def id3In (cls : String) (desc : Option String) : Filt := fun v =>
  some (.frame cls v desc)

/-- `ID3Out` (with the default `attr='text'`): `getattr(value, 'text',
None)`, so anything that is not a frame becomes `None`. -/
def id3Out : Filt := fun v =>
  match v with
  | .frame _ p _ => some p
  | _ => Option.none

/-- `Year`: `int(getattr(value, 'year', 0))`, returned only when positive.
Only timestamp objects expose a `year` attribute. -/
def yearF : Filt := fun v =>
  match v with
  | .stamp y => if 0 < y then some (.int y) else Option.none
  | _ => Option.none

/-- `ToApic` given the image decoder: build an `id3.APIC` frame with
`type=PictureType.COVER_FRONT` (= 4 in `booktag.constants`), `desc=''` and
the image's data and mime; raw bytes are decoded first, and a decode
failure or a value without a `data` attribute skips. -/
def toApicF (decode : List Nat → Option ImgStream) : Filt := fun v =>
  match v with
  | .bytes b =>
    match decode b with
    | some c => some (.pic ⟨some 4, Option.none, some "", some c.data, c.mime⟩)
    | Option.none => Option.none
  | .img c => some (.pic ⟨some 4, Option.none, some "", some c.data, c.mime⟩)
  | .pic p =>
    match p.data with
    | some d => some (.pic ⟨some 4, Option.none, some "", some d, p.mime⟩)
    | Option.none => Option.none
  | _ => Option.none

/-- `ToMp4Cover` given the image decoder: build an `mp4.MP4Cover` with the
image's data and `imageformat` 14 (`FORMAT_PNG`) for PNG input and 13
(`FORMAT_JPEG`) otherwise; an `MP4Cover` has no `desc` attribute. -/
def toMp4CoverF (decode : List Nat → Option ImgStream) : Filt := fun v =>
  let img? : Option ImgStream :=
    match v with
    | .bytes b => decode b
    | .img c => some c
    | _ => Option.none
  match img? with
  | some c =>
    some (.pic ⟨Option.none, some (if c.format = "PNG" then 14 else 13),
      Option.none, some c.data, ""⟩)
  | Option.none => Option.none

/-- Deterministic stand-in for `base64.b64encode(flac.Picture(...).write())`
in `ToVorbisCover`; only injectivity-in-spirit and determinism matter to
the facade, which treats the string as opaque. -/
def vorbisEncode (c : ImgStream) : String :=
  "B64PIC:" ++ toString c.width ++ "x" ++ toString c.height ++ ":" ++ c.mime
    ++ ":" ++ String.intercalate "," (c.data.map toString)

/-- `ToVorbisCover` given the image decoder: encode the cover as a base64
string of a FLAC picture block. -/
def toVorbisCoverF (decode : List Nat → Option ImgStream) : Filt := fun v =>
  match v with
  | .bytes b =>
    match decode b with
    | some c => some (.str (vorbisEncode c))
    | Option.none => Option.none
  | .img c => some (.str (vorbisEncode c))
  | _ => Option.none

/-- `VorbisCover` given the inverse boundary function: decode a base64
string into a `flac.Picture`, `None` (skip) on failure or non-strings. -/
def vorbisCoverF (vdec : String → Option Pic) : Filt := fun v =>
  match v with
  | .str s =>
    match vdec s with
    | some p => some (.pic p)
    | Option.none => Option.none
  | _ => Option.none

/-! ## Rules (`AbstractMapRule` subclasses) -/

/-- The three kinds of assignment targets the rules write to: the
`Metadata` record (read direction), a plain dict-like container (MP4 and
Vorbis tags), and an ID3 container whose `add` stores a frame under the
frame's own `HashKey`. -/
inductive TargetKind where
  | metaT
  | plainT
  | id3T
  deriving Repr, DecidableEq

/-- The mutagen `HashKey` of the frames the facade adds to ID3 containers:
text frames use their frame id, `COMM` frames append `desc` and the
default language `XXX`, and `APIC` frames append their `desc`. -/
def hashKey : PyVal → String
  | .frame cls _ desc => if cls = "COMM" then "COMM:" ++ desc.getD "" ++ ":XXX" else cls
  | .pic p => "APIC:" ++ p.desc.getD ""
  | _ => ""

/-- The non-`None` arm of `AbstractMapRule.set_tag`: `target.add(value)`
when the target is an ID3 container, `target[key] = value` otherwise; a
`TypeError`/`ValueError` from the target (only the `Metadata` normalizers
raise in the model) becomes `SkipTagError`. -/
def setTagRes (tk : TargetKind) (t : Tags) (k : String) (v : PyVal) : Except Unit Tags :=
  match tk with
  | .metaT =>
    match Metadata.setItem t k v with
    | .ok t₁ => .ok t₁
    | .error _ => .error ()
  | .plainT => .ok (setT k v t)
  | .id3T => .ok (setT (hashKey v) v t)

/-- `AbstractMapRule.get_tag`: `source.get(key, None)`, raising
`SkipTagError` on `None`. -/
def getTag (src : String) (source : Tags) : Option PyVal :=
  match lookupT src source with
  | Option.none => Option.none
  | some v => if v.isNone then Option.none else some v

/-- The write phase shared by `MoveTag.run` and `ToPairTag.run`: apply the
filter chain to the value, `set_tag` the result into the target key, and on
any `SkipTagError` delete the target key instead. -/
def writeThrough (tk : TargetKind) (tgt : String) (fs : List Filt) (v : PyVal)
    (target : Tags) : Tags :=
  match applyChain fs v with
  | Option.none => eraseT tgt target
  | some w =>
    match setTagRes tk target tgt w with
    | .ok t₁ => t₁
    | .error _ => eraseT tgt target

/-- `MoveTag.run`: read the source key, apply the filter chain, write the
target key; any `SkipTagError` (absent source, chain skip, or target
rejection) instead deletes the target key. -/
def moveTagRun (tk : TargetKind) (src tgt : String) (fs : List Filt)
    (source target : Tags) : Tags :=
  match getTag src source with
  | Option.none => eraseT tgt target
  | some v => writeThrough tk tgt fs v target

/-- One target assignment of `PairTag.run`: `ToInt(notzero=False)` on the
component, then `set_tag` into the `Metadata` record, with `SkipTagError`
(from a normalizer rejection) leaving the record untouched and a `None`
component deleting the key. -/
def pairStep (t : Tags) (tk : String) (iv : PyVal) : Tags :=
  match toInt false false iv with
  | Option.none => eraseT tk t
  | some w =>
    match Metadata.setItem t tk w with
    | .ok t₁ => t₁
    | .error _ => t

/-- `PairTag.run`: read the packed source value, apply the filter chain,
pad with two `None`s, and assign the first two components independently to
the two target keys.  `PairTag.run` does not catch `SkipTagError`, so an
absent source or a chain skip propagates to the caller; concatenating
`[None, None]` to a non-list result raises `TypeError`. -/
def pairTagRun (src tgt0 tgt1 : String) (fs : List Filt)
    (source target : Tags) : Except PyErr Tags :=
  match getTag src source with
  | Option.none => .error .skipTag
  | some v =>
    match applyChain fs v with
    | Option.none => .error .skipTag
    | some (.list xs) =>
      match xs ++ [PyVal.none, PyVal.none] with
      | a :: b :: _ => .ok (pairStep (pairStep target tgt0 a) tgt1 b)
      | _ => .error .typeErr
    | some _ => .error .typeErr

/-- One source field of `ToPairTag._execute`: `get_tag` then
`ToInt(notzero=True, positive=True)`, `None` results raising
`SkipTagError`. -/
def toPairGet (md : Metadata) (k : String) : Option Int :=
  match getTag k md with
  | Option.none => Option.none
  | some v =>
    match toInt true true v with
    | some (.int n) => some n
    | _ => Option.none

/-- `ToPairTag.run`: a skip on the first (numerator) source field skips the
whole rule (deleting the target key, via `MoveTag.run`); a skip on the
second field defaults that component to `0`; the synthesized two-element
list is passed through the filter chain and written to the target key. -/
def toPairTagRun (tk : TargetKind) (k0 k1 tgt : String) (fs : List Filt)
    (md target : Tags) : Tags :=
  match toPairGet md k0 with
  | Option.none => eraseT tgt target
  | some n0 =>
    let n1 : Int := (toPairGet md k1).getD 0
    writeThrough tk tgt fs (.list [.int n0, .int n1]) target

/-- One candidate of `AlbumsortTag._execute`: `get_tag` then
`ToStr(notempty=True)`, `None` results raising `SkipTagError`. -/
def albumsortCand (md : Metadata) (k : String) : Option String :=
  match getTag k md with
  | Option.none => Option.none
  | some v =>
    match toStr " " true v with
    | some (.str s) => some s
    | _ => Option.none

/-- The `value = tagfilter.run(value)` step of `AlbumsortTag._execute`:
join the candidate strings with `ToStr(notempty=True)` (a `None` result is
handed on to the filter chain unchanged). -/
def albumsortJoined (value : List String) : PyVal :=
  match toStr " " true (.list (value.map PyVal.str)) with
  | some w => w
  | Option.none => PyVal.none

/-- The final `set_tag(target, self._to, self._filter(value))` of
`AlbumsortTag._execute`; a skip from the chain or the target propagates as
`SkipTagError` (nothing is deleted, since `AbstractMapRule.run` has no
handler). -/
def albumsortWrite (tk : TargetKind) (tgt : String) (fs : List Filt) (v : PyVal)
    (target : Tags) : Except PyErr Tags :=
  match applyChain fs v with
  | Option.none => .error .skipTag
  | some w =>
    match setTagRes tk target tgt w with
    | .ok t₁ => .ok t₁
    | .error _ => .error .skipTag

/-- `AlbumsortTag` run under `AbstractMapRule.run`, which does not catch
`SkipTagError`: candidates are collected from `grouping`, `albumsort` and
`album` in that order, but a skip on `grouping` re-raises and aborts the
whole rule; a single collected candidate also aborts; otherwise the
candidates are joined with `ToStr` and written through the rule's filter
chain. -/
def albumsortRun (tk : TargetKind) (tgt : String) (fs : List Filt)
    (md target : Tags) : Except PyErr Tags :=
  match albumsortCand md "grouping" with
  | Option.none => .error .skipTag
  | some g =>
    let value :=
      g :: ((albumsortCand md "albumsort").toList ++ (albumsortCand md "album").toList)
    if value.length = 1 then .error .skipTag
    else albumsortWrite tk tgt fs (albumsortJoined value) target

/-! ## The pair and albumsort mapping entries (from the
`MP3ReadMapping`/`MP4ReadMapping` and `MP3WriteMapping`/`MP4WriteMapping`
tables) -/

/-- Filters of `PairTag('TRCK', TRACKNUM, TRACKTOTAL, ID3Out, FirstItem,
SplitStr(sep=['/'], notempty=True))` (and the identical `TPOS` entry). -/
def trckReadFilters : List Filt := [id3Out, firstItem, splitStr ['/'] true]

/-- Filters of `ToPairTag(TRACKNUM, TRACKTOTAL, 'TRCK', RStrip,
ToStr(sep='/'), ToList, ID3In(cls=id3.TRCK))`. -/
def trckWriteFilters : List Filt :=
  [rStrip, toStr "/" true, toList true, id3In "TRCK" Option.none]

/-- Filters of `PairTag('trkn', TRACKNUM, TRACKTOTAL, FirstItem, ToList)`
(and the identical `disk` entry). -/
def trknReadFilters : List Filt := [firstItem, toList true]

/-- Filters of `ToPairTag(TRACKNUM, TRACKTOTAL, 'trkn', ToListFirstTuple)`. -/
def trknWriteFilters : List Filt := [toListFirstTuple]

/-- Filters of `AlbumsortTag('TSOA', ToList, ID3In(cls=id3.TSOA))`. -/
def tsoaFilters : List Filt := [toList true, id3In "TSOA" Option.none]

/-- C1 counterexample: the claim quantifies over every supported format's
pair rules, but the MP4 `ToPairTag` rule has no `RStrip` filter, so a
Metadata record holding `tracknum = 5` with `tracktotal` absent serializes
the packed pair `(5, 0)` — the "5/0" shape the claim says is never
produced. -/
theorem mp4_topair_writes_five_zero :
    toPairTagRun .plainT "tracknum" "tracktotal" "trkn" trknWriteFilters
      [("tracknum", PyVal.int 5)] []
      = [("trkn", PyVal.list [PyVal.tuple [PyVal.int 5, PyVal.int 0]])]
    ∧ lookupT "tracktotal" [("tracknum", PyVal.int 5)] = Option.none :=
  ⟨rfl, rfl⟩

/-- C1 (amended): the round-trip holds as claimed for the ID3 pair rules —
a `TRCK` frame `"3/12"` reads to `tracknum = 3`, `tracktotal = 12` and
serializes back to `"3/12"`, while `"5"` reads to `tracknum = 5` with
`tracktotal` absent and serializes back to `"5"`, because `RStrip` drops
the zero that `ToPairTag` substitutes for the absent total.  The MP4 pair
rules round-trip `(3, 12)` and read `(5, 0)` back to a numerator-only
record, but serialize a numerator-only record as `(5, 0)`.  The zero
default applies whenever the second field is absent (or non-positive), not
only when both fields exist with the second zero — indeed `Metadata` can
never hold a zero `tracktotal`, since assigning zero deletes the key. -/
theorem pair_rules_roundtrip :
    pairTagRun "TRCK" "tracknum" "tracktotal" trckReadFilters
      [("TRCK", PyVal.frame "TRCK" (PyVal.list [PyVal.str "3/12"]) Option.none)] []
      = .ok [("tracknum", PyVal.int 3), ("tracktotal", PyVal.int 12)]
    ∧ toPairTagRun .id3T "tracknum" "tracktotal" "TRCK" trckWriteFilters
        [("tracknum", PyVal.int 3), ("tracktotal", PyVal.int 12)] []
      = [("TRCK", PyVal.frame "TRCK" (PyVal.list [PyVal.str "3/12"]) Option.none)]
    ∧ pairTagRun "TRCK" "tracknum" "tracktotal" trckReadFilters
        [("TRCK", PyVal.frame "TRCK" (PyVal.list [PyVal.str "5"]) Option.none)] []
      = .ok [("tracknum", PyVal.int 5)]
    ∧ toPairTagRun .id3T "tracknum" "tracktotal" "TRCK" trckWriteFilters
        [("tracknum", PyVal.int 5)] []
      = [("TRCK", PyVal.frame "TRCK" (PyVal.list [PyVal.str "5"]) Option.none)]
    ∧ pairTagRun "trkn" "tracknum" "tracktotal" trknReadFilters
        [("trkn", PyVal.list [PyVal.tuple [PyVal.int 3, PyVal.int 12]])] []
      = .ok [("tracknum", PyVal.int 3), ("tracktotal", PyVal.int 12)]
    ∧ toPairTagRun .plainT "tracknum" "tracktotal" "trkn" trknWriteFilters
        [("tracknum", PyVal.int 3), ("tracktotal", PyVal.int 12)] []
      = [("trkn", PyVal.list [PyVal.tuple [PyVal.int 3, PyVal.int 12]])]
    ∧ pairTagRun "trkn" "tracknum" "tracktotal" trknReadFilters
        [("trkn", PyVal.list [PyVal.tuple [PyVal.int 5, PyVal.int 0]])] []
      = .ok [("tracknum", PyVal.int 5)]
    ∧ (∀ m : Metadata,
        Metadata.setItem m "tracktotal" (PyVal.int 0) = .ok (eraseT "tracktotal" m)) :=
  ⟨rfl, rfl, rfl, rfl, rfl, rfl, rfl, fun _ => rfl⟩

/-- C7: for every Metadata source, `ToPairTag` skips entirely — the target
key is deleted rather than written — whenever the first (numerator) source
field is absent; and when the numerator is present (a positive integer, the
only numeric shape `Metadata` stores) while only the second source field is
absent, the rule does not skip: it hands the packed two-element value with
the second component defaulted to zero to its filter chain and writes the
result to the target key. -/
theorem topair_skip_and_zero_default :
    ∀ (tk : TargetKind) (k0 k1 tgt : String) (fs : List Filt) (md t : Tags),
      (lookupT k0 md = Option.none → toPairTagRun tk k0 k1 tgt fs md t = eraseT tgt t)
      ∧ (∀ n : Int, lookupT k0 md = some (PyVal.int n) → 0 < n →
          lookupT k1 md = Option.none →
          toPairTagRun tk k0 k1 tgt fs md t
            = writeThrough tk tgt fs (PyVal.list [PyVal.int n, PyVal.int 0]) t) := by
  intro tk k0 k1 tgt fs md t
  constructor
  · intro h
    simp [toPairTagRun, toPairGet, getTag, h]
  · intro n h0 hn h1
    have htoInt : toInt true true (PyVal.int n) = some (PyVal.int n) := by
      simp only [toInt, pyInt]
      rw [if_neg (by simp; omega), if_neg (by simp; omega)]
    simp [toPairTagRun, toPairGet, getTag, h0, h1, htoInt, PyVal.isNone]

/-- Witness for C7: both branches at concrete inputs — an empty record
deletes `TRCK`, and a record with only `tracknum = 5` synthesizes the pair
`[5, 0]` for the filter chain. -/
theorem topair_skip_and_zero_default_witness :
    toPairTagRun .id3T "tracknum" "tracktotal" "TRCK" trckWriteFilters [] []
      = eraseT "TRCK" []
    ∧ toPairTagRun .id3T "tracknum" "tracktotal" "TRCK" trckWriteFilters
        [("tracknum", PyVal.int 5)] []
      = writeThrough .id3T "TRCK" trckWriteFilters
          (PyVal.list [PyVal.int 5, PyVal.int 0]) [] :=
  ⟨(topair_skip_and_zero_default .id3T "tracknum" "tracktotal" "TRCK"
      trckWriteFilters [] []).1 rfl,
   (topair_skip_and_zero_default .id3T "tracknum" "tracktotal" "TRCK"
      trckWriteFilters [("tracknum", PyVal.int 5)] []).2 5 rfl (by decide) rfl⟩

/-- C2 counterexample: with `grouping` absent but two non-empty candidates
available (`albumsort = 5` and `album = "X"`), the MP3 `AlbumsortTag` rule
writes nothing at all: the skip raised for the missing `grouping` candidate
re-raises out of the rule before the other candidates are considered, where
the claim requires the two candidates to be joined and written. -/
theorem albumsort_skips_without_grouping :
    albumsortRun .id3T "TSOA" tsoaFilters
      [("albumsort", PyVal.int 5), ("album", PyVal.str "X")] []
      = .error .skipTag
    ∧ albumsortCand [("albumsort", PyVal.int 5), ("album", PyVal.str "X")] "albumsort"
      = some "5"
    ∧ albumsortCand [("albumsort", PyVal.int 5), ("album", PyVal.str "X")] "album"
      = some "X" :=
  ⟨rfl, rfl, rfl⟩

/-- C2 (amended): `AlbumsortTag` collects non-empty string candidates from
`grouping`, `albumsort` and `album` in that order, but the `grouping`
candidate is mandatory: if it is absent or empty the rule skips entirely,
regardless of the other fields.  When `grouping` is present, exactly one
candidate (only `grouping` itself) skips without writing, and two or more
candidates are joined with the separator and written to the target key
through the rule's filter chain. -/
theorem albumsort_rule_cases :
    ∀ (tk : TargetKind) (tgt : String) (fs : List Filt) (md t : Tags),
      (albumsortCand md "grouping" = Option.none →
        albumsortRun tk tgt fs md t = .error .skipTag)
      ∧ (∀ g, albumsortCand md "grouping" = some g →
          albumsortCand md "albumsort" = Option.none →
          albumsortCand md "album" = Option.none →
          albumsortRun tk tgt fs md t = .error .skipTag)
      ∧ (∀ g rest, albumsortCand md "grouping" = some g →
          (albumsortCand md "albumsort").toList ++ (albumsortCand md "album").toList
            = rest →
          rest ≠ [] →
          albumsortRun tk tgt fs md t
            = albumsortWrite tk tgt fs (albumsortJoined (g :: rest)) t) := by
  intro tk tgt fs md t
  refine ⟨fun h => by simp [albumsortRun, h], fun g hg h1 h2 => ?_, fun g rest hg hr hne => ?_⟩
  · simp [albumsortRun, hg, h1, h2]
  · unfold albumsortRun
    rw [hg, hr]
    have hlen : (g :: rest).length ≠ 1 := by
      cases rest with
      | nil => exact absurd rfl hne
      | cons a l => simp
    exact if_neg hlen

/-- Witness for the amended C2 at concrete records: `grouping` plus `album`
joins two candidates, and an empty record skips. -/
theorem albumsort_rule_cases_witness :
    albumsortRun .id3T "TSOA" tsoaFilters
      [("grouping", PyVal.str "Saga"), ("album", PyVal.str "Book 1")] []
      = albumsortWrite .id3T "TSOA" tsoaFilters (albumsortJoined ["Saga", "Book 1"]) []
    ∧ albumsortRun .id3T "TSOA" tsoaFilters [] [] = .error .skipTag :=
  ⟨(albumsort_rule_cases .id3T "TSOA" tsoaFilters
      [("grouping", PyVal.str "Saga"), ("album", PyVal.str "Book 1")] []).2.2
      "Saga" ["Book 1"] rfl rfl (by simp),
   (albumsort_rule_cases .id3T "TSOA" tsoaFilters [] []).1 rfl⟩

/-! ## Embedded pictures (`AbstractPictureRule`, `PictureIn`, `PictureOut`) -/

/-- `AbstractPictureRule.PRIORITY_ORDER`, using the `PictureType` values of
`booktag.constants` (an `IntEnum` counting from 1): `COVER_FRONT = 4`,
`COVER_BACK = 5`, `OTHER = 1`, `LEAFLET_PAGE = 6`, `MEDIA = 7`,
`LEAD_ARTIST = 8`, `ARTIST = 9`, `ILLUSTRATION = 19`. -/
def priorityOrder : List Int := [4, 5, 1, 6, 7, 8, 9, 19]

/-- `zip(PRIORITY_ORDER, range(100, 0, -10))` from `_embedded_iter`:
the zip truncates the ten weights to the eight priority entries. -/
def priorityWeights : List (Int × Nat) :=
  priorityOrder.zip [100, 90, 80, 70, 60, 50, 40, 30, 20, 10]

/-- `weights.get(picture_type, 0)`. -/
def weightOf (tp : Int) : Nat := (priorityWeights.lookup tp).getD 0

/-- `getattr(pic, 'type', getattr(pic, 'imageformat',
PictureType.COVER_FRONT))`: the picture-type classification, falling back
to the MP4 `imageformat` attribute and finally to `COVER_FRONT` (4). -/
def picTypeAttr (v : PyVal) : Int :=
  match v with
  | .pic p =>
    match p.ptype with
    | some tp => tp
    | Option.none => p.imageformat.getD 4
  | _ => 4

/-- `getattr(pic, 'data', pic)`: the raw payload bytes when the picture
object has them, otherwise the object itself. -/
def picDataAttr (v : PyVal) : PyVal :=
  match v with
  | .pic p =>
    match p.data with
    | some d => .bytes d
    | Option.none => v
  | .img i => .bytes i.data
  | v => v

/-- The filtered `(picture_type, payload)` pairs accumulated by
`_embedded_iter`: pictures whose filter chain skips are dropped
individually. -/
def embeddedCandidates (fs : List Filt) (pics : List PyVal) : List (Int × PyVal) :=
  pics.filterMap (fun p =>
    (applyChain fs p).map (fun q => (picTypeAttr q, picDataAttr q)))

/-- Stable insertion of a candidate into a weight-descending list (Python's
`list.sort(key=…, reverse=True)` keeps the original order of equal keys; an
earlier element is inserted before later elements of equal weight). -/
def insertDescBy (x : Int × PyVal) : List (Int × PyVal) → List (Int × PyVal)
  | [] => [x]
  | y :: ys =>
    if weightOf y.1 ≤ weightOf x.1 then x :: y :: ys else y :: insertDescBy x ys

/-- The `pictures.sort(key=lambda x: weights.get(x[0], 0), reverse=True)`
step: a stable descending sort by weight. -/
def sortByWeight : List (Int × PyVal) → List (Int × PyVal)
  | [] => []
  | x :: xs => insertDescBy x (sortByWeight xs)

/-- `_embedded_iter`: filter, weigh, sort (stably, descending), and yield
the payloads. -/
def embeddedIter (fs : List Filt) (pics : List PyVal) : List PyVal :=
  (sortByWeight (embeddedCandidates fs pics)).map (·.2)

/-- `s.split(':')[0]` on a tag key. -/
def keyGroup (k : String) : String := ⟨k.toList.takeWhile (fun c => c ≠ ':')⟩

/-- Mutagen `ID3.getall(key)`: the value itself when the exact key is
present, otherwise every value whose key's first `:`-separated component
equals `key`. -/
def getallId3 (src : String) (t : Tags) : List PyVal :=
  match lookupT src t with
  | some v => [v]
  | Option.none => (t.filter (fun e => keyGroup e.1 = src)).map (·.2)

/-- `AbstractPictureRule.get_tag` on a container without `getall`:
`source.get(key, None) or []`, iterated by the caller; iterating a truthy
non-iterable value raises `TypeError`. -/
def getallPlainE (src : String) (t : Tags) : Except PyErr (List PyVal) :=
  match lookupT src t with
  | Option.none => .ok []
  | some v =>
    if pyTruthy v then
      match pyIterate v with
      | some xs => .ok xs
      | Option.none => .error .typeErr
    else .ok []

/-- `AbstractPictureRule.get_tag(…, silent=True)` dispatched on the
container kind (`hasattr(source, 'getall')`). -/
def getallE (tk : TargetKind) (src : String) (t : Tags) : Except PyErr (List PyVal) :=
  match tk with
  | .id3T => .ok (getallId3 src t)
  | _ => getallPlainE src t

/-- `streams.ImageStream.from_file` at the pillow boundary: `decode` stands
for opening and re-exporting the image; any failure raises
`exceptions.NotAnImageFileError` — an exception class that
`booktag.exceptions` does not define, so the `raise` statement itself
raises `AttributeError`. -/
def fromFileE (decode : List Nat → Option ImgStream) (v : PyVal) : Except Unit ImgStream :=
  match v with
  | .bytes b =>
    match decode b with
    | some i => .ok i
    | Option.none => .error ()
  | _ => .error ()

/-- The candidate loop of `PictureOut._execute`: adopt the first payload
that decodes and break.  On a decode failure the handler clause
`except (AttributeError, exceptions.NotAnImageFileError)` is evaluated,
and evaluating `exceptions.NotAnImageFileError` raises `AttributeError`
(the class is missing), so the failure aborts the whole rule instead of
skipping to the next candidate. -/
def pictureOutLoop (decode : List Nat → Option ImgStream) (target : Tags) :
    List PyVal → Except PyErr Tags
  | [] => .ok target
  | c :: _ =>
    match fromFileE decode c with
    | .ok i =>
      match Metadata.setItem target "cover" (.img i) with
      | .ok t₁ => .ok t₁
      | .error _ => .error .skipTag
    | .error _ => .error (.attrErr "NotAnImageFileError")

/-- `PictureOut` as run by the engine loop. -/
def pictureOutRun (decode : List Nat → Option ImgStream) (tk : TargetKind)
    (src : String) (fs : List Filt) (source target : Tags) : Except PyErr Tags := do
  let pics ← getallE tk src source
  pictureOutLoop decode target (embeddedIter fs pics)

/-- The `cover` fetch of `PictureIn._execute`: `get_tag(source, 'cover',
silent=True)` followed by the `if cover:` truthiness test. -/
def coverGet (md : Metadata) : Option PyVal :=
  match lookupT "cover" md with
  | Option.none => Option.none
  | some v => if pyTruthy v then some v else Option.none

/-- `hasattr(x, 'desc')` and the attribute itself. -/
def descOf (v : PyVal) : Option String :=
  match v with
  | .pic p => p.desc
  | .frame _ _ d => d
  | _ => Option.none

/-- The delete loop of `PictureIn._execute`: for every embedded picture
with a `desc` attribute, `set_tag(target, f'{to_key}:{pic.desc}', None)` —
i.e. delete the key computed from the description. -/
def picDeleteDescs (src : String) (embedded : List PyVal) (t : Tags) : Tags :=
  embedded.foldl (fun acc p =>
    match descOf p with
    | some d => eraseT (src ++ ":" ++ d) acc
    | Option.none => acc) t

/-- `PictureIn` as run by the engine loop: a no-op without a truthy cover;
otherwise the desc-keyed duplicates are deleted and the filtered cover is
written.  A skip from the filter chain (or the target) propagates to the
engine loop, which catches it, so the deletions persist and nothing is
inserted. -/
def pictureInRun (tk : TargetKind) (src : String) (fs : List Filt)
    (md target : Tags) : Except PyErr Tags :=
  match coverGet md with
  | Option.none => .ok target
  | some c =>
    match getallE tk src target with
    | .error e => .error e
    | .ok embedded =>
      let t₁ := picDeleteDescs src embedded target
      match applyChain fs c with
      | Option.none => .ok t₁
      | some w =>
        match setTagRes tk t₁ src w with
        | .ok t₂ => .ok t₂
        | .error _ => .ok t₁

theorem lookup_setT (q k : String) (v : PyVal) (t : Tags) :
    lookupT q (setT k v t) = if k = q then some v else lookupT q t := by
  induction t with
  | nil =>
    by_cases h : k = q <;> simp [setT, lookupT, h]
  | cons hd tl ih =>
    rcases hd with ⟨k₀, v₀⟩
    simp only [setT]
    by_cases hk : k₀ = k
    · subst hk
      rw [if_pos rfl]
      by_cases hq : k₀ = q <;> simp [lookupT, hq]
    · rw [if_neg hk]
      by_cases hq : k₀ = q
      · have hkq : ¬ k = q := fun h => hk (hq.trans h.symm)
        simp [lookupT, hq, hkq]
      · simp [lookupT, hq, ih]

theorem lookup_eraseT (q k : String) (t : Tags) :
    lookupT q (eraseT k t) = if q = k then Option.none else lookupT q t := by
  induction t with
  | nil => by_cases h : q = k <;> simp [eraseT, lookupT, h]
  | cons hd tl ih =>
    rcases hd with ⟨k₀, v₀⟩
    simp only [eraseT, List.filter_cons] at ih ⊢
    by_cases hk : k₀ = k
    · rw [if_neg (by simp [hk])]
      rw [ih]
      by_cases hq : q = k
      · simp [hq]
      · have hkq : ¬ k₀ = q := fun h => hq (h.symm.trans hk)
        simp [lookupT, hq, hkq]
    · rw [if_pos (by simp [hk])]
      by_cases hq : k₀ = q
      · have hqk : ¬ q = k := fun h => hk (hq.trans h)
        simp [lookupT, hq, hqk]
      · simp only [lookupT, if_neg hq]
        simpa using ih

/-- The keys deleted by the `PictureIn` delete loop. -/
def descKeys (src : String) (e : List PyVal) : List String :=
  e.filterMap (fun p => (descOf p).map (fun d => src ++ ":" ++ d))

theorem lookup_picDeleteDescs (q src : String) (e : List PyVal) (t : Tags) :
    lookupT q (picDeleteDescs src e t)
      = if q ∈ descKeys src e then Option.none else lookupT q t := by
  induction e generalizing t with
  | nil => simp [picDeleteDescs, descKeys]
  | cons p rest ih =>
    cases hd : descOf p with
    | none =>
      have hdk : descKeys src (p :: rest) = descKeys src rest := by
        simp [descKeys, List.filterMap_cons, hd]
      simp only [picDeleteDescs, List.foldl_cons, hd]
      rw [show (rest.foldl (fun acc p =>
            match descOf p with
            | some d => eraseT (src ++ ":" ++ d) acc
            | Option.none => acc) t) = picDeleteDescs src rest t from rfl, ih, hdk]
    | some d =>
      have hdk : descKeys src (p :: rest) = (src ++ ":" ++ d) :: descKeys src rest := by
        simp [descKeys, List.filterMap_cons, hd]
      simp only [picDeleteDescs, List.foldl_cons, hd]
      rw [show (rest.foldl (fun acc p =>
            match descOf p with
            | some d => eraseT (src ++ ":" ++ d) acc
            | Option.none => acc) (eraseT (src ++ ":" ++ d) t))
          = picDeleteDescs src rest (eraseT (src ++ ":" ++ d) t) from rfl, ih, hdk]
      by_cases hq1 : q ∈ descKeys src rest
      · rw [if_pos hq1, if_pos (List.mem_cons_of_mem _ hq1)]
      · rw [if_neg hq1, lookup_eraseT]
        by_cases hq2 : q = src ++ ":" ++ d
        · rw [if_pos hq2, if_pos (by rw [hq2]; exact List.mem_cons_self _ _)]
        · rw [if_neg hq2, if_neg (by simp [hq1, hq2])]

/-- An image decoder accepting only the byte blob `[1]`, standing in for
pillow when exactly one of the embedded byte payloads is a valid image. -/
def decodeJpegOnly : List Nat → Option ImgStream :=
  fun b => if b = [1] then some ⟨[1], "JPEG", 1, 1⟩ else Option.none

/-- C3: `PictureOut` does rank candidates by the fixed priority order, but
a picture that fails image validation does not merely get skipped — because
`booktag.exceptions` does not define `NotAnImageFileError`, both the
`raise` in `ImageStream.from_file` and the handler tuple
`except (AttributeError, exceptions.NotAnImageFileError)` in
`PictureOut._execute` raise `AttributeError`, aborting the whole rule.
Concretely: with an invalid front cover ranked above a valid illustration,
the rule fails with `AttributeError` instead of adopting the
illustration. -/
theorem pictureout_crashes_on_invalid_candidate :
    pictureOutRun decodeJpegOnly .id3T "APIC" []
      [("APIC:i", PyVal.pic ⟨some 19, Option.none, some "i", some [1], "image/jpeg"⟩),
       ("APIC:f", PyVal.pic ⟨some 4, Option.none, some "f", some [9], "image/jpeg"⟩)]
      []
      = .error (.attrErr "NotAnImageFileError")
    ∧ decodeJpegOnly [1] = some ⟨[1], "JPEG", 1, 1⟩
    ∧ decodeJpegOnly [9] = Option.none
    ∧ weightOf 4 = 100 ∧ weightOf 19 = 30
    ∧ pictureOutRun decodeJpegOnly .id3T "APIC" []
        [("APIC:i", PyVal.pic ⟨some 19, Option.none, some "i", some [1], "image/jpeg"⟩)]
        []
      = .ok [("cover", PyVal.img ⟨[1], "JPEG", 1, 1⟩)] :=
  ⟨rfl, rfl, rfl, rfl, rfl, rfl⟩

/-- C8: `PictureIn` with no canonical cover in the Metadata record leaves
the target container completely unchanged; with a cover set (on an ID3
container keyed by frame `HashKey`s, so no bare source key and every
desc-carrying picture stored under its computed key), every pre-existing
embedded picture with a `desc` sub-field is removed and the filtered cover
is inserted. -/
theorem picturein_frame_effect :
    ∀ (tk : TargetKind) (src : String) (fs : List Filt) (md t : Tags),
      (lookupT "cover" md = Option.none → pictureInRun tk src fs md t = .ok t)
      ∧ (∀ c fc, lookupT "cover" md = some c → pyTruthy c = true →
          applyChain fs c = some fc →
          lookupT src t = Option.none →
          (∀ k v d, (k, v) ∈ t → keyGroup k = src → descOf v = some d →
            k = src ++ ":" ++ d) →
          ∃ t₂, pictureInRun .id3T src fs md t = .ok t₂
            ∧ lookupT (hashKey fc) t₂ = some fc
            ∧ (∀ k v d, (k, v) ∈ t → keyGroup k = src → descOf v = some d →
                k ≠ hashKey fc → lookupT k t₂ = Option.none)) := by
  intro tk src fs md t
  constructor
  · intro h
    simp [pictureInRun, coverGet, h]
  · intro c fc hcov htru hfc hbare hwf
    have hcg : coverGet md = some c := by simp [coverGet, hcov, htru]
    refine ⟨setT (hashKey fc) fc
      (picDeleteDescs src (getallId3 src t) t), ?_, ?_, ?_⟩
    · simp [pictureInRun, hcg, getallE, hfc, setTagRes]
    · simp [lookup_setT]
    · intro k v d hm hg hd hne
      have hk : k = src ++ ":" ++ d := hwf k v d hm hg hd
      have hvemb : v ∈ getallId3 src t := by
        unfold getallId3
        rw [hbare]
        exact List.mem_map_of_mem _ (List.mem_filter.mpr ⟨hm, by simp [hg]⟩)
      have hdk : k ∈ descKeys src (getallId3 src t) := by
        rw [hk]
        exact List.mem_filterMap.mpr ⟨v, hvemb, by simp [hd]⟩
      rw [lookup_setT, if_neg (fun h => hne h.symm), lookup_picDeleteDescs, if_pos hdk]

/-- Witness for C8 at a concrete record and ID3 container: a record without
a cover leaves the container alone, and one with a cover removes the
desc-keyed `APIC` duplicate and inserts the new frame. -/
theorem picturein_frame_effect_witness :
    pictureInRun .id3T "APIC" [toApicF decodeJpegOnly] []
      [("APIC:a", PyVal.pic ⟨some 4, Option.none, some "a", some [2], "image/jpeg"⟩),
       ("TALB", PyVal.frame "TALB" (PyVal.list [PyVal.str "B"]) Option.none)]
      = .ok [("APIC:a", PyVal.pic ⟨some 4, Option.none, some "a", some [2], "image/jpeg"⟩),
             ("TALB", PyVal.frame "TALB" (PyVal.list [PyVal.str "B"]) Option.none)]
    ∧ (∃ t₂,
        pictureInRun .id3T "APIC" [toApicF decodeJpegOnly]
          [("cover", PyVal.img ⟨[1], "JPEG", 1, 1⟩)]
          [("APIC:a", PyVal.pic ⟨some 4, Option.none, some "a", some [2], "image/jpeg"⟩),
           ("TALB", PyVal.frame "TALB" (PyVal.list [PyVal.str "B"]) Option.none)]
          = .ok t₂
        ∧ lookupT (hashKey (PyVal.pic ⟨some 4, Option.none, some "", some [1], "image/jpeg"⟩)) t₂
            = some (PyVal.pic ⟨some 4, Option.none, some "", some [1], "image/jpeg"⟩)
        ∧ (∀ k v d,
            (k, v) ∈ ([("APIC:a", PyVal.pic ⟨some 4, Option.none, some "a", some [2], "image/jpeg"⟩),
              ("TALB", PyVal.frame "TALB" (PyVal.list [PyVal.str "B"]) Option.none)] : Tags) →
            keyGroup k = "APIC" → descOf v = some d →
            k ≠ hashKey (PyVal.pic ⟨some 4, Option.none, some "", some [1], "image/jpeg"⟩) →
            lookupT k t₂ = Option.none)) := by
  constructor
  · exact (picturein_frame_effect .id3T "APIC" [toApicF decodeJpegOnly] []
      [("APIC:a", PyVal.pic ⟨some 4, Option.none, some "a", some [2], "image/jpeg"⟩),
       ("TALB", PyVal.frame "TALB" (PyVal.list [PyVal.str "B"]) Option.none)]).1 rfl
  · refine (picturein_frame_effect .id3T "APIC" [toApicF decodeJpegOnly]
      [("cover", PyVal.img ⟨[1], "JPEG", 1, 1⟩)]
      [("APIC:a", PyVal.pic ⟨some 4, Option.none, some "a", some [2], "image/jpeg"⟩),
       ("TALB", PyVal.frame "TALB" (PyVal.list [PyVal.str "B"]) Option.none)]).2
      (PyVal.img ⟨[1], "JPEG", 1, 1⟩)
      (PyVal.pic ⟨some 4, Option.none, some "", some [1], "image/jpeg"⟩)
      rfl rfl rfl rfl ?_
    intro k v d hm hg hd
    simp only [List.mem_cons, List.mem_singleton, List.not_mem_nil, or_false] at hm
    rcases hm with hm | hm
    · obtain ⟨hk, hv⟩ := Prod.ext_iff.mp hm
      simp only at hk hv
      subst hk
      subst hv
      simp only [descOf, Option.some.injEq] at hd
      subst hd
      decide
    · obtain ⟨hk, hv⟩ := Prod.ext_iff.mp hm
      simp only at hk hv
      subst hk
      exact absurd hg (by decide)

/-! ## Drop-groups (`Mapping.add_useless` / `_drop_tags`)

Each regular expression appearing in a write mapping's drop-groups is
embedded as the corresponding decidable matcher; `re.search` anchors are
reflected in the constructor (`^LIT`, `^LIT$`, `LIT$`, `^.LIT`, `^.LIT$`,
`^C[A-Z]{3}`). -/

inductive Pat where
  /-- `^LIT` under `re.search`: the key starts with the literal. -/
  | startP (s : String)
  /-- `^LIT$`: the key equals the literal. -/
  | exactP (s : String)
  /-- `LIT$`: the key ends with the literal. -/
  | endP (s : String)
  /-- `^.LIT`: any first character, then the literal. -/
  | dotStartP (s : String)
  /-- `^.LIT$`: any first character, then exactly the literal. -/
  | dotExactP (s : String)
  /-- `^C[A-Z]{3}`: the given character, then three ASCII capitals. -/
  | upper3P (c : Char)
  deriving Repr, DecidableEq

/-- Whether `re.search(pattern, key)` matches. -/
def Pat.matches : Pat → String → Bool
  | .startP p, k => p.toList.isPrefixOf k.toList
  | .exactP p, k => k = p
  | .endP p, k => p.toList.isSuffixOf k.toList
  | .dotStartP p, k =>
    match k.toList with
    | [] => false
    | _ :: rest => p.toList.isPrefixOf rest
  | .dotExactP p, k =>
    match k.toList with
    | [] => false
    | _ :: rest => rest = p.toList
  | .upper3P c, k =>
    match k.toList with
    | c₀ :: a :: b :: d :: _ => c₀ = c && a.isUpper && b.isUpper && d.isUpper
    | _ => false

/-- `_drop_tags(target, *regexps)`: delete every key matching one of the
patterns. -/
def dropTags (pats : List Pat) (t : Tags) : Tags :=
  t.filter (fun e => !(pats.any (fun p => p.matches e.1)))

/-- `Mapping.get_useless(namespace)` (empty for unknown namespaces). -/
def getUseless (useless : List (String × List Pat)) (ns : String) : List Pat :=
  (useless.lookup ns).getD []

/-- The drop loop of `export`: `for namespace in
settings.get('metadata.tags.drop', []): _drop_tags(audio.tags,
*mapping.get_useless(namespace))`. -/
def dropPhase (useless : List (String × List Pat)) (sel : List String) (t : Tags) : Tags :=
  sel.foldl (fun acc ns => dropTags (getUseless useless ns) acc) t

/-- Drop-groups of `MP3WriteMapping`: `comment=['^COMM']`,
`legal=['^TCOP$', '^TOWN$', '^TPRO$']`, `lyrics=['^USLT']`,
`rating=['^TMOO$', '^PCNT$', '^POPM']`, `url=['^W[A-Z]{3}']`,
`user=['^TXXX']`. -/
def mp3Useless : List (String × List Pat) :=
  [("comment", [.startP "COMM"]),
   ("legal", [.exactP "TCOP", .exactP "TOWN", .exactP "TPRO"]),
   ("lyrics", [.startP "USLT"]),
   ("rating", [.exactP "TMOO", .exactP "PCNT", .startP "POPM"]),
   ("url", [.upper3P 'W']),
   ("user", [.startP "TXXX"])]

/-- Drop-groups of `MP4WriteMapping`: `comment=['^.cmt']`,
`legal=['^cprt$', 'LICENSE$']`, `lyrics=['^.lyr$']`, `rating=['MOOD$']`. -/
def mp4Useless : List (String × List Pat) :=
  [("comment", [.dotStartP "cmt"]),
   ("legal", [.exactP "cprt", .endP "LICENSE"]),
   ("lyrics", [.dotExactP "lyr"]),
   ("rating", [.endP "MOOD"])]

/-- Drop-groups of `OggWriteMapping`: `legal=['^copyright', '^license']`,
`rating=['^mrat', '^mood', '^rating']`, `url=['^contact', '^website']`,
`lyrics=['^lyrics']`. -/
def oggUseless : List (String × List Pat) :=
  [("legal", [.startP "copyright", .startP "license"]),
   ("rating", [.startP "mrat", .startP "mood", .startP "rating"]),
   ("url", [.startP "contact", .startP "website"]),
   ("lyrics", [.startP "lyrics"])]

/-! ## The write and read mappings and the engine entry points -/

/-- A write-mapping entry: `PictureIn`, `MoveTag`, `AlbumsortTag` or
`ToPairTag` with its construction arguments. -/
inductive WriteRule where
  | picture (src : String) (fs : List Filt)
  | move (src tgt : String) (fs : List Filt)
  | sortRule (tgt : String) (fs : List Filt)
  | pair2 (k0 k1 tgt : String) (fs : List Filt)

/-- One iteration of the `export` rule loop: run the rule against
`(metadata, audio.tags)`, catching `SkipTagError` (which leaves the
container state the rule reached); other exceptions propagate. -/
def applyWriteRule (tk : TargetKind) (md t : Tags) : WriteRule → Except PyErr Tags
  | .picture src fs => pictureInRun tk src fs md t
  | .move src tgt fs => .ok (moveTagRun tk src tgt fs md t)
  | .sortRule tgt fs =>
    .ok (match albumsortRun tk tgt fs md t with
      | .ok t₁ => t₁
      | .error _ => t)
  | .pair2 k0 k1 tgt fs => .ok (toPairTagRun tk k0 k1 tgt fs md t)

/-- The `export` rule loop. -/
def runWriteRules (tk : TargetKind) (md : Metadata) :
    List WriteRule → Tags → Except PyErr Tags
  | [], t => .ok t
  | r :: rs, t =>
    match applyWriteRule tk md t r with
    | .error e => .error e
    | .ok t₁ => runWriteRules tk md rs t₁

/-- `MP3WriteMapping` (target: an ID3 container). -/
def mp3WriteRules (decode : List Nat → Option ImgStream) : List WriteRule :=
  [.picture "APIC" [toApicF decode],
   .move "album" "TALB" [toStr " " true, toList true, id3In "TALB" Option.none],
   .move "date" "TDRC" [toInt true true, toStr " " true, id3In "TDRC" Option.none],
   .move "originaldate" "TDOR" [toInt true true, toStr " " true, id3In "TDOR" Option.none],
   .move "grouping" "GRP1" [toStr " " true, toList true, id3In "GRP1" Option.none],
   .move "grouping" "TIT1" [toStr " " true, toList true, id3In "TIT1" Option.none],
   .move "title" "TIT2" [toStr " " true, toList true, id3In "TIT2" Option.none],
   .move "artist" "TPE1" [toStr ", " true, toList true, id3In "TPE1" Option.none],
   .move "albumartist" "TPE2" [toStr ", " true, toList true, id3In "TPE2" Option.none],
   .move "composer" "TCOM" [toStr ", " true, toList true, id3In "TCOM" Option.none],
   .move "genre" "TCON" [toStr ", " true, toList true, id3In "TCON" Option.none],
   .move "label" "TPUB" [toStr " " true, toList true, id3In "TPUB" Option.none],
   .move "comment" "COMM:description"
     [toStr " " true, toList true, id3In "COMM" (some "description")],
   .sortRule "TSOA" tsoaFilters,
   .pair2 "tracknum" "tracktotal" "TRCK" trckWriteFilters,
   .pair2 "discnum" "disctotal" "TPOS"
     [rStrip, toStr "/" true, toList true, id3In "TPOS" Option.none]]

/-- `MP4WriteMapping` (target: a plain atom dictionary). -/
def mp4WriteRules (decode : List Nat → Option ImgStream) : List WriteRule :=
  [.picture "covr" [toMp4CoverF decode, toList true],
   .move "album" "©alb" [toStr " " true, toList true],
   .move "date" "©day" [toInt true false, toStr " " true, toList true],
   .move "grouping" "©grp" [toStr " " true, toList true],
   .move "title" "©nam" [toStr " " true, toList true],
   .move "artist" "©ART" [toStr ", " true, toList true],
   .move "albumartist" "aART" [toStr ", " true, toList true],
   .move "composer" "©wrt" [toStr ", " true, toList true],
   .move "genre" "©gen" [toStr ", " true, toList true],
   .move "comment" "©cmt" [toStr " " true, toList true],
   .sortRule "soal" [toList true],
   .pair2 "tracknum" "tracktotal" "trkn" trknWriteFilters,
   .pair2 "discnum" "disctotal" "disk" [toListFirstTuple]]

/-- `OggWriteMapping` (target: a Vorbis comment dictionary). -/
def oggWriteRules (decode : List Nat → Option ImgStream) : List WriteRule :=
  [.picture "metadata_block_picture" [toVorbisCoverF decode, toList true],
   .move "album" "album" [toStr " " true, toList true],
   .move "date" "date" [toInt true false, toStr " " true, toList true],
   .move "grouping" "grouping" [toStr " " true, toList true],
   .move "title" "title" [toStr " " true, toList true],
   .move "artist" "artist" [toStr ", " true, toList true],
   .move "albumartist" "albumartist" [toStr ", " true, toList true],
   .move "composer" "composer" [toStr ", " true, toList true],
   .move "genre" "genre" [toStr ", " true, toList true],
   .move "label" "label" [toStr " " true, toList true],
   .move "comment" "comment" [toStr " " true, toList true],
   .sortRule "albumsort" [toList true],
   .move "tracknum" "tracknumber" [toInt true false, toStr " " true, toList true],
   .move "tracktotal" "tracktotal" [toInt true false, toStr " " true, toList true],
   .move "discnum" "discnumber" [toInt true false, toStr " " true, toList true],
   .move "disctotal" "disctotal" [toInt true false, toStr " " true, toList true]]

/-- A read-mapping entry: `PictureOut`, `MoveTag` or `PairTag`. -/
inductive ReadRule where
  | picOut (src : String) (fs : List Filt)
  | moveR (src tgt : String) (fs : List Filt)
  | pairR (src tgt0 tgt1 : String) (fs : List Filt)

/-- One read rule against `(audio.tags, metadata)`. -/
def applyReadRule (decode : List Nat → Option ImgStream) (tk : TargetKind)
    (tags md : Tags) : ReadRule → Except PyErr Metadata
  | .picOut src fs => pictureOutRun decode tk src fs tags md
  | .moveR src tgt fs => .ok (moveTagRun .metaT src tgt fs tags md)
  | .pairR src t0 t1 fs => pairTagRun src t0 t1 fs tags md

/-- The `from_file` rule loop: `SkipTagError` skips the rule, other
exceptions propagate. -/
def runReadRules (decode : List Nat → Option ImgStream) (tk : TargetKind)
    (tags : Tags) : List ReadRule → Metadata → Except PyErr Metadata
  | [], md => .ok md
  | r :: rs, md =>
    match applyReadRule decode tk tags md r with
    | .ok md₁ => runReadRules decode tk tags rs md₁
    | .error .skipTag => runReadRules decode tk tags rs md
    | .error e => .error e

/-- `MP3ReadMapping`. -/
def mp3ReadRules : List ReadRule :=
  [.picOut "APIC" [],
   .moveR "TALB" "album" [id3Out, toStr " " true],
   .moveR "TDRC" "date" [id3Out, yearF],
   .moveR "TDOR" "originaldate" [id3Out, yearF],
   .moveR "TIT1" "grouping" [id3Out, toStr " " true],
   .moveR "TIT2" "title" [id3Out, toStr " " true],
   .moveR "TPE1" "artist" [id3Out, splitStr [',', '&', '/'] true],
   .moveR "TPE2" "albumartist" [id3Out, splitStr [',', '&', '/'] true],
   .moveR "TCOM" "composer" [id3Out, splitStr [',', '&', '/'] true],
   .moveR "TCON" "genre" [id3Out, splitStr [',', '/'] true],
   .moveR "TPUB" "label" [id3Out, toStr " " true],
   .moveR "COMM:description" "comment" [id3Out, toStr " " true],
   .pairR "TRCK" "tracknum" "tracktotal" trckReadFilters,
   .pairR "TPOS" "discnum" "disctotal" [id3Out, firstItem, splitStr ['/'] true]]

/-- `MP4ReadMapping`. -/
def mp4ReadRules : List ReadRule :=
  [.picOut "covr" [],
   .moveR "©alb" "album" [toStr " " true],
   .moveR "©day" "date" [firstItem, toInt true false],
   .moveR "©grp" "grouping" [toStr " " true],
   .moveR "©nam" "title" [toStr " " true],
   .moveR "©ART" "artist" [splitStr [',', '&', '/'] true],
   .moveR "aART" "albumartist" [splitStr [',', '&', '/'] true],
   .moveR "©wrt" "composer" [splitStr [',', '&', '/'] true],
   .moveR "©gen" "genre" [splitStr [',', '/'] true],
   .moveR "©cmt" "comment" [toStr " " true],
   .pairR "trkn" "tracknum" "tracktotal" trknReadFilters,
   .pairR "disk" "discnum" "disctotal" [firstItem, toList true]]

/-- `OggReadMapping`, given the base64/FLAC picture decoding boundary. -/
def oggReadRules (vdec : String → Option Pic) : List ReadRule :=
  [.picOut "metadata_block_picture" [vorbisCoverF vdec],
   .moveR "album" "album" [toStr " " true],
   .moveR "date" "date" [firstItem, toInt true false],
   .moveR "originaldate" "originaldate" [firstItem, toInt true false],
   .moveR "grouping" "grouping" [toStr " " true],
   .moveR "title" "title" [toStr " " true],
   .moveR "artist" "artist" [splitStr [',', '&', '/'] true],
   .moveR "albumartist" "albumartist" [splitStr [',', '&', '/'] true],
   .moveR "composer" "composer" [splitStr [',', '&', '/'] true],
   .moveR "genre" "genre" [splitStr [',', '/'] true],
   .moveR "label" "label" [toStr " " true],
   .moveR "comment" "comment" [toStr " " true],
   .moveR "tracknumber" "tracknum" [firstItem, toInt true false],
   .moveR "tracktotal" "tracktotal" [firstItem, toInt true false],
   .moveR "discnumber" "discnum" [firstItem, toInt true false],
   .moveR "disctotal" "disctotal" [firstItem, toInt true false]]

/-- The format discriminator of `_resolve_audiotype`'s `isinstance` chain:
`MP3`, `MP4` and the Ogg family are registered; everything else (for
example the FLAC and WAV types mutagen can also open) is not. -/
inductive AudioKind where
  | mp3
  | mp4
  | ogg
  | flac
  | wav
  deriving Repr, DecidableEq

/-- `_resolve_audiotype`: dispatch by container type.  For an unregistered
type the code executes `raise exceptions.FileTypeNotSupportedError(...)`,
but `booktag.exceptions` defines no such class (the docstring names the
existing `FileNotSupportedError`), so the statement raises
`AttributeError` instead. -/
def resolveAudiotype (k : AudioKind) : Except PyErr AudioKind :=
  match k with
  | .mp3 => .ok .mp3
  | .mp4 => .ok .mp4
  | .ogg => .ok .ogg
  | _ => .error (.attrErr "FileTypeNotSupportedError")

/-- The write configuration selected by `_resolve_audiotype` for a
registered kind: target dialect, write rules, drop-groups. -/
def writeConfigFor (decode : List Nat → Option ImgStream) :
    AudioKind → TargetKind × List WriteRule × List (String × List Pat)
  | .mp3 => (.id3T, mp3WriteRules decode, mp3Useless)
  | .mp4 => (.plainT, mp4WriteRules decode, mp4Useless)
  | .ogg => (.plainT, oggWriteRules decode, oggUseless)
  | _ => (.plainT, [], [])

/-- `export(path, metadata)` on an already-opened container of kind `k`
with drop-group selection `sel`: resolve the mapping (failing on
unregistered kinds before touching anything), drop the selected useless
tags, then run every write rule in declaration order. -/
def exportRun (decode : List Nat → Option ImgStream) (k : AudioKind)
    (sel : List String) (md : Metadata) (t : Tags) : Except PyErr Tags :=
  match resolveAudiotype k with
  | .error e => .error e
  | .ok _ =>
    match writeConfigFor decode k with
    | (tk, rules, useless) => runWriteRules tk md rules (dropPhase useless sel t)

/-- `from_file(path)` on an already-opened container of kind `k`: resolve
the read mapping (failing on unregistered kinds before constructing the
Metadata record), then run every read rule into a fresh record. -/
def fromFileRun (decode : List Nat → Option ImgStream) (vdec : String → Option Pic)
    (k : AudioKind) (tags : Tags) : Except PyErr Metadata :=
  match resolveAudiotype k with
  | .error e => .error e
  | .ok _ =>
    match k with
    | .mp3 => runReadRules decode .id3T tags mp3ReadRules []
    | .mp4 => runReadRules decode .plainT tags mp4ReadRules []
    | .ogg => runReadRules decode .plainT tags (oggReadRules vdec) []
    | _ => .error (.attrErr "FileTypeNotSupportedError")

theorem lookup_filter_key (p : String → Bool) (q : String) (t : Tags) :
    lookupT q (t.filter (fun e => p e.1))
      = if p q then lookupT q t else Option.none := by
  induction t with
  | nil => cases h : p q <;> simp [lookupT, h]
  | cons hd tl ih =>
    rcases hd with ⟨k₀, v₀⟩
    simp only [List.filter_cons]
    by_cases hp : p k₀
    · rw [if_pos hp]
      by_cases hq : k₀ = q
      · subst hq
        simp [lookupT, hp]
      · simp [lookupT, hq, ih]
    · rw [if_neg hp]
      rw [ih]
      by_cases hq : k₀ = q
      · subst hq
        simp [lookupT, hp, Bool.eq_false_iff.mpr hp]
      · simp [lookupT, hq]

theorem lookup_dropTags (pats : List Pat) (q : String) (t : Tags) :
    lookupT q (dropTags pats t)
      = if pats.any (fun p => p.matches q) then Option.none else lookupT q t := by
  unfold dropTags
  rw [lookup_filter_key (fun k => !(pats.any (fun p => p.matches k)))]
  cases h : pats.any (fun p => p.matches q) <;> simp [h]

/-- Whether the selected drop-groups of a mapping delete the key. -/
def dropMatch (useless : List (String × List Pat)) (sel : List String) (k : String) : Bool :=
  sel.any (fun ns => (getUseless useless ns).any (fun p => p.matches k))

theorem lookup_dropPhase (useless : List (String × List Pat)) (sel : List String)
    (q : String) (t : Tags) :
    lookupT q (dropPhase useless sel t)
      = if dropMatch useless sel q then Option.none else lookupT q t := by
  induction sel generalizing t with
  | nil => simp [dropPhase, dropMatch]
  | cons ns rest ih =>
    have hstep : dropPhase useless (ns :: rest) t
        = dropPhase useless rest (dropTags (getUseless useless ns) t) := rfl
    rw [hstep, ih, lookup_dropTags]
    have hm : dropMatch useless (ns :: rest) q
        = ((getUseless useless ns).any (fun p => p.matches q) || dropMatch useless rest q) := by
      simp [dropMatch]
    rw [hm]
    by_cases h1 : dropMatch useless rest q <;>
      by_cases h2 : (getUseless useless ns).any (fun p => p.matches q) <;>
        simp [h1, h2]

/-- C4 counterexample: a full MP3 write call with no drop-groups selected
removes nothing at all — the container keeps `TMOO`, a key of the `rating`
group (the group the replaced `mutagenapi` dropped unconditionally via
`drop_tags(True, 'TMOO', …)`); the facade's `export` has no mandatory
"always remove" group, it drops only what the configuration selects. -/
theorem export_empty_selection_drops_nothing :
    exportRun decodeJpegOnly .mp3 [] [] [("TMOO", PyVal.str "m")]
      = .ok [("TMOO", PyVal.str "m")]
    ∧ ((mp3Useless.lookup "rating").getD []).any (fun p => p.matches "TMOO") = true :=
  ⟨rfl, rfl⟩

/-- C4 (amended): before the write rules run, `export` deletes exactly the
container keys matching a pattern of a drop-group in the caller-selected
configuration — no group is applied unconditionally, and an empty selection
deletes nothing.  Selecting `legal` on the MP3 mapping removes the
copyright/ownership keys `TCOP`, `TOWN` and `TPRO` and leaves every other
key, in particular comment keys, untouched. -/
theorem drop_groups_follow_selection :
    ∀ (useless : List (String × List Pat)) (sel : List String) (q : String) (t : Tags),
      (lookupT q (dropPhase useless sel t)
        = if dropMatch useless sel q then Option.none else lookupT q t)
      ∧ dropPhase useless [] t = t
      ∧ (q = "TCOP" ∨ q = "TOWN" ∨ q = "TPRO" →
          lookupT q (dropPhase mp3Useless ["legal"] t) = Option.none)
      ∧ (q ≠ "TCOP" → q ≠ "TOWN" → q ≠ "TPRO" →
          lookupT q (dropPhase mp3Useless ["legal"] t) = lookupT q t)
      ∧ lookupT "COMM:description" (dropPhase mp3Useless ["legal"] t)
          = lookupT "COMM:description" t := by
  intro useless sel q t
  refine ⟨lookup_dropPhase useless sel q t, rfl, ?_, ?_, ?_⟩
  · rintro (rfl | rfl | rfl) <;> rw [lookup_dropPhase] <;> exact if_pos rfl
  · intro h1 h2 h3
    rw [lookup_dropPhase]
    have hleg : getUseless mp3Useless "legal"
        = [Pat.exactP "TCOP", Pat.exactP "TOWN", Pat.exactP "TPRO"] := rfl
    have : dropMatch mp3Useless ["legal"] q = false := by
      simp [dropMatch, hleg, Pat.matches, h1, h2, h3]
    rw [this]
    rfl
  · rw [lookup_dropPhase]
    exact if_neg (by decide)

/-- Witness for the amended C4 at concrete keys and a concrete container. -/
theorem drop_groups_follow_selection_witness :
    lookupT "TCOP" (dropPhase mp3Useless ["legal"]
      [("TCOP", PyVal.str "c"), ("COMM:description", PyVal.str "b")]) = Option.none
    ∧ lookupT "COMM:description" (dropPhase mp3Useless ["legal"]
        [("TCOP", PyVal.str "c"), ("COMM:description", PyVal.str "b")])
      = lookupT "COMM:description"
          [("TCOP", PyVal.str "c"), ("COMM:description", PyVal.str "b")]
    ∧ dropPhase mp3Useless []
        [("TCOP", PyVal.str "c"), ("COMM:description", PyVal.str "b")]
      = [("TCOP", PyVal.str "c"), ("COMM:description", PyVal.str "b")] :=
  ⟨(drop_groups_follow_selection mp3Useless ["legal"] "TCOP"
      [("TCOP", PyVal.str "c"), ("COMM:description", PyVal.str "b")]).2.2.1
      (Or.inl rfl),
   (drop_groups_follow_selection mp3Useless ["legal"] "COMM:description"
      [("TCOP", PyVal.str "c"), ("COMM:description", PyVal.str "b")]).2.2.2.2,
   (drop_groups_follow_selection mp3Useless [] "x"
      [("TCOP", PyVal.str "c"), ("COMM:description", PyVal.str "b")]).2.1⟩

/-- C6: for a container whose discriminator is not a registered dialect,
`_resolve_audiotype` is evaluated before any drop or rule mutates the
container or the Metadata record, so both `read` and `write` abort with
nothing changed — but the failure is an `AttributeError`, not the
unsupported-format error: the code raises
`exceptions.FileTypeNotSupportedError`, a class `booktag.exceptions` never
defines (its own docstring names the existing `FileNotSupportedError`). -/
theorem unknown_format_attribute_error :
    ∀ (decode : List Nat → Option ImgStream) (vdec : String → Option Pic)
      (k : AudioKind), k = .flac ∨ k = .wav →
      ∀ (sel : List String) (md : Metadata) (t : Tags),
        resolveAudiotype k = .error (.attrErr "FileTypeNotSupportedError")
        ∧ exportRun decode k sel md t = .error (.attrErr "FileTypeNotSupportedError")
        ∧ fromFileRun decode vdec k t = .error (.attrErr "FileTypeNotSupportedError") := by
  rintro decode vdec k (rfl | rfl) sel md t <;> exact ⟨rfl, rfl, rfl⟩

/-- Witness for C6 at a concrete FLAC-typed container. -/
theorem unknown_format_attribute_error_witness :
    resolveAudiotype .flac = .error (.attrErr "FileTypeNotSupportedError")
    ∧ exportRun decodeJpegOnly .flac ["legal"] [("album", PyVal.str "A")]
        [("TCOP", PyVal.str "c")]
      = .error (.attrErr "FileTypeNotSupportedError")
    ∧ fromFileRun decodeJpegOnly (fun _ => Option.none) .flac [("TCOP", PyVal.str "c")]
      = .error (.attrErr "FileTypeNotSupportedError") :=
  unknown_format_attribute_error decodeJpegOnly (fun _ => Option.none) .flac
    (Or.inl rfl) ["legal"] [("album", PyVal.str "A")] [("TCOP", PyVal.str "c")]

/-! ## Write-rule effects

Every non-picture write rule either writes one key, deletes one key, or
leaves the container alone, and which of these happens — and with what
value — depends only on the Metadata record, never on the container.  This
section factors that out; it drives the idempotence proof. -/

/-- The container action of one write rule. -/
inductive RuleEffect where
  | writeE (key : String) (w : PyVal)
  | eraseE (key : String)
  | noneE

/-- The key a non-metadata `set_tag` actually stores under: ID3 containers
use the frame's `HashKey`, plain containers the rule's target key. -/
def writeKey (tk : TargetKind) (tgt : String) (w : PyVal) : String :=
  match tk with
  | .id3T => hashKey w
  | _ => tgt

def applyEffect (e : RuleEffect) (t : Tags) : Tags :=
  match e with
  | .writeE k w => setT k w t
  | .eraseE k => eraseT k t
  | .noneE => t

/-- The effect of `MoveTag.run` on a container target. -/
def moveEffect (tk : TargetKind) (md : Metadata) (src tgt : String)
    (fs : List Filt) : RuleEffect :=
  match getTag src md with
  | Option.none => .eraseE tgt
  | some v =>
    match applyChain fs v with
    | Option.none => .eraseE tgt
    | some w => .writeE (writeKey tk tgt w) w

/-- The effect of `ToPairTag.run` on a container target. -/
def pair2Effect (tk : TargetKind) (md : Metadata) (k0 k1 tgt : String)
    (fs : List Filt) : RuleEffect :=
  match toPairGet md k0 with
  | Option.none => .eraseE tgt
  | some n0 =>
    match applyChain fs (.list [.int n0, .int ((toPairGet md k1).getD 0)]) with
    | Option.none => .eraseE tgt
    | some w => .writeE (writeKey tk tgt w) w

/-- The effect of `AlbumsortTag` (with the engine loop's `SkipTagError`
handler) on a container target. -/
def sortEffect (tk : TargetKind) (md : Metadata) (tgt : String)
    (fs : List Filt) : RuleEffect :=
  match albumsortCand md "grouping" with
  | Option.none => .noneE
  | some g =>
    let value :=
      g :: ((albumsortCand md "albumsort").toList ++ (albumsortCand md "album").toList)
    if value.length = 1 then .noneE
    else
      match applyChain fs (albumsortJoined value) with
      | Option.none => .noneE
      | some w => .writeE (writeKey tk tgt w) w

def ruleEffect (tk : TargetKind) (md : Metadata) : WriteRule → RuleEffect
  | .move src tgt fs => moveEffect tk md src tgt fs
  | .pair2 k0 k1 tgt fs => pair2Effect tk md k0 k1 tgt fs
  | .sortRule tgt fs => sortEffect tk md tgt fs
  | .picture _ _ => .noneE

def WriteRule.isMoveLike : WriteRule → Bool
  | .picture _ _ => false
  | _ => true

theorem setTagRes_nonmeta {tk : TargetKind} (h : tk ≠ .metaT) (t : Tags)
    (k : String) (v : PyVal) :
    setTagRes tk t k v = .ok (setT (writeKey tk k v) v t) := by
  cases tk with
  | metaT => exact absurd rfl h
  | plainT => rfl
  | id3T => rfl

theorem writeThrough_effect {tk : TargetKind} (h : tk ≠ .metaT)
    (tgt : String) (fs : List Filt) (v : PyVal) (t : Tags) :
    writeThrough tk tgt fs v t
      = applyEffect
          (match applyChain fs v with
           | Option.none => .eraseE tgt
           | some w => .writeE (writeKey tk tgt w) w) t := by
  unfold writeThrough
  cases applyChain fs v with
  | none => rfl
  | some w =>
    dsimp only
    rw [setTagRes_nonmeta h]
    rfl

theorem moveTagRun_effect {tk : TargetKind} (h : tk ≠ .metaT)
    (src tgt : String) (fs : List Filt) (md t : Tags) :
    moveTagRun tk src tgt fs md t = applyEffect (moveEffect tk md src tgt fs) t := by
  unfold moveTagRun moveEffect
  cases getTag src md with
  | none => rfl
  | some v =>
    dsimp only
    rw [writeThrough_effect h]

theorem toPairTagRun_effect {tk : TargetKind} (h : tk ≠ .metaT)
    (k0 k1 tgt : String) (fs : List Filt) (md t : Tags) :
    toPairTagRun tk k0 k1 tgt fs md t
      = applyEffect (pair2Effect tk md k0 k1 tgt fs) t := by
  unfold toPairTagRun pair2Effect
  cases toPairGet md k0 with
  | none => rfl
  | some n0 =>
    dsimp only
    rw [writeThrough_effect h]

theorem albumsort_effect {tk : TargetKind} (h : tk ≠ .metaT)
    (tgt : String) (fs : List Filt) (md t : Tags) :
    (match albumsortRun tk tgt fs md t with
      | .ok t₁ => t₁
      | .error _ => t)
      = applyEffect (sortEffect tk md tgt fs) t := by
  unfold albumsortRun sortEffect
  cases albumsortCand md "grouping" with
  | none => rfl
  | some g =>
    dsimp only
    by_cases hlen :
        (g :: ((albumsortCand md "albumsort").toList
          ++ (albumsortCand md "album").toList)).length = 1
    · rw [if_pos hlen, if_pos hlen]
      rfl
    · rw [if_neg hlen, if_neg hlen]
      unfold albumsortWrite
      cases applyChain fs (albumsortJoined
          (g :: ((albumsortCand md "albumsort").toList
            ++ (albumsortCand md "album").toList))) with
      | none => rfl
      | some w =>
        dsimp only
        rw [setTagRes_nonmeta h]
        rfl

theorem applyWriteRule_effect {tk : TargetKind} (h : tk ≠ .metaT)
    (md t : Tags) {r : WriteRule} (hr : r.isMoveLike = true) :
    applyWriteRule tk md t r = .ok (applyEffect (ruleEffect tk md r) t) := by
  cases r with
  | picture src fs => simp [WriteRule.isMoveLike] at hr
  | move src tgt fs =>
    simp only [applyWriteRule, ruleEffect, moveTagRun_effect h]
  | sortRule tgt fs =>
    simp only [applyWriteRule, ruleEffect]
    rw [albumsort_effect h]
  | pair2 k0 k1 tgt fs =>
    simp only [applyWriteRule, ruleEffect, toPairTagRun_effect h]

/-- Folding the effects of a rule list over a container. -/
def runEffects (tk : TargetKind) (md : Metadata) (rs : List WriteRule) (t : Tags) : Tags :=
  rs.foldl (fun t r => applyEffect (ruleEffect tk md r) t) t

theorem runWriteRules_moveLike {tk : TargetKind} (h : tk ≠ .metaT)
    (md : Metadata) {rs : List WriteRule}
    (hrs : ∀ r ∈ rs, r.isMoveLike = true) (t : Tags) :
    runWriteRules tk md rs t = .ok (runEffects tk md rs t) := by
  induction rs generalizing t with
  | nil => rfl
  | cons r rest ih =>
    have hr := hrs r (List.mem_cons_self _ _)
    have hrest : ∀ r ∈ rest, r.isMoveLike = true :=
      fun r hm => hrs r (List.mem_cons_of_mem _ hm)
    simp only [runWriteRules, applyWriteRule_effect h md t hr]
    exact ih hrest _

/-- The per-key transformation an effect performs. -/
def effStep (e : RuleEffect) (q : String) : Option PyVal → Option PyVal :=
  match e with
  | .writeE k w => fun a => if k = q then some w else a
  | .eraseE k => fun a => if q = k then Option.none else a
  | .noneE => id

theorem lookup_applyEffect (e : RuleEffect) (q : String) (t : Tags) :
    lookupT q (applyEffect e t) = effStep e q (lookupT q t) := by
  cases e with
  | writeE k w => exact lookup_setT q k w t
  | eraseE k => exact lookup_eraseT q k t
  | noneE => rfl

/-- The per-key transformation of a whole rule list. -/
def foldSteps (tk : TargetKind) (md : Metadata) (rs : List WriteRule) (q : String)
    (a : Option PyVal) : Option PyVal :=
  rs.foldl (fun a r => effStep (ruleEffect tk md r) q a) a

theorem lookup_runEffects (tk : TargetKind) (md : Metadata) (rs : List WriteRule)
    (q : String) (t : Tags) :
    lookupT q (runEffects tk md rs t) = foldSteps tk md rs q (lookupT q t) := by
  induction rs generalizing t with
  | nil => rfl
  | cons r rest ih =>
    simp only [runEffects, List.foldl_cons, foldSteps] at ih ⊢
    rw [← lookup_applyEffect]
    exact ih _

theorem effStep_id_or_const (e : RuleEffect) (q : String) :
    (∀ a, effStep e q a = a) ∨ (∃ c, ∀ a, effStep e q a = c) := by
  cases e with
  | writeE k w =>
    by_cases hk : k = q
    · exact Or.inr ⟨some w, fun a => by simp [effStep, hk]⟩
    · exact Or.inl (fun a => by simp [effStep, hk])
  | eraseE k =>
    by_cases hk : q = k
    · exact Or.inr ⟨Option.none, fun a => by simp [effStep, hk]⟩
    · exact Or.inl (fun a => by simp [effStep, hk])
  | noneE => exact Or.inl (fun a => rfl)

theorem foldSteps_id_or_const (tk : TargetKind) (md : Metadata)
    (rs : List WriteRule) (q : String) :
    (∀ a, foldSteps tk md rs q a = a) ∨ (∃ c, ∀ a, foldSteps tk md rs q a = c) := by
  induction rs with
  | nil => exact Or.inl (fun a => rfl)
  | cons r rest ih =>
    have hstep : ∀ a, foldSteps tk md (r :: rest) q a
        = foldSteps tk md rest q (effStep (ruleEffect tk md r) q a) := fun a => rfl
    rcases ih with hid | ⟨c, hc⟩
    · rcases effStep_id_or_const (ruleEffect tk md r) q with h1 | ⟨c, hc⟩
      · exact Or.inl (fun a => by rw [hstep, h1, hid])
      · exact Or.inr ⟨c, fun a => by rw [hstep, hc, hid]⟩
    · exact Or.inr ⟨c, fun a => by rw [hstep, hc]⟩

theorem foldSteps_idem (tk : TargetKind) (md : Metadata)
    (rs : List WriteRule) (q : String) (a : Option PyVal) :
    foldSteps tk md rs q (foldSteps tk md rs q a) = foldSteps tk md rs q a := by
  rcases foldSteps_id_or_const tk md rs q with hid | ⟨c, hc⟩
  · rw [hid, hid]
  · rw [hc, hc]

/-! ## The source-key namespace of a picture rule

`PictureIn` reads and writes only keys whose first `:`-separated component
is the rule's source key; the write rules never touch that namespace.  The
"slice" of a container under that namespace determines `getall`. -/

/-- The entries of a container whose key group is `src`. -/
def srcSlice (src : String) (t : Tags) : Tags :=
  t.filter (fun e => keyGroup e.1 = src)

theorem strAppendData (a b : String) : (a ++ b).data = a.data ++ b.data := by
  cases a
  cases b
  rfl

theorem takeWhile_all {α : Type} {p : α → Bool} {l : List α}
    (h : l.takeWhile p = l) : ∀ a ∈ l, p a = true := by
  induction l with
  | nil => intro a ha; exact absurd ha (List.not_mem_nil _)
  | cons x xs ih =>
    intro a ha
    by_cases hp : p x
    · rw [List.takeWhile_cons, if_pos hp] at h
      have htail : xs.takeWhile p = xs := by
        have := List.cons.injEq .. ▸ h
        exact this.2
      rcases List.mem_cons.mp ha with rfl | ha
      · exact hp
      · exact ih htail a ha
    · rw [List.takeWhile_cons, if_neg hp] at h
      exact absurd h.symm (List.cons_ne_nil _ _)

theorem takeWhile_append_all {α : Type} {p : α → Bool} {l₁ l₂ : List α}
    (h : ∀ a ∈ l₁, p a = true) :
    (l₁ ++ l₂).takeWhile p = l₁ ++ l₂.takeWhile p := by
  induction l₁ with
  | nil => simp
  | cons x xs ih =>
    have hx := h x (List.mem_cons_self _ _)
    simp only [List.cons_append, List.takeWhile_cons, if_pos hx]
    rw [ih (fun a ha => h a (List.mem_cons_of_mem _ ha))]

/-- A key equal to its own group contains no colon, so suffixing `:desc`
keeps its group. -/
theorem keyGroup_append_colon {src : String} (h : keyGroup src = src) (d : String) :
    keyGroup (src ++ ":" ++ d) = src := by
  have hdata : (keyGroup src).data = src.data := congrArg String.data h
  have hall : ∀ c ∈ src.data, (fun c => decide (c ≠ ':')) c = true :=
    takeWhile_all hdata
  have happ : (src ++ ":" ++ d).data = src.data ++ (':' :: d.data) := by
    rw [strAppendData, strAppendData]
    simp
  unfold keyGroup
  rw [show (src ++ ":" ++ d).toList = src.data ++ (':' :: d.data) from happ]
  rw [takeWhile_append_all hall]
  rw [show (':' :: d.data).takeWhile (fun c => decide (c ≠ ':')) = [] by
    simp [List.takeWhile_cons]]
  rw [List.append_nil]

theorem ne_append_colon (src d : String) : src ≠ src ++ ":" ++ d := by
  intro h
  have hd := congrArg String.data h
  rw [show (src ++ ":" ++ d) = src ++ (":" ++ d) by rw [String.append_assoc]] at hd
  rw [strAppendData, strAppendData] at hd
  have := congrArg List.length hd
  simp at this

theorem lookup_srcSlice {src q : String} (h : keyGroup q = src) (t : Tags) :
    lookupT q (srcSlice src t) = lookupT q t := by
  induction t with
  | nil => rfl
  | cons hd tl ih =>
    rcases hd with ⟨k₀, v₀⟩
    simp only [srcSlice, List.filter_cons] at ih ⊢
    by_cases hg : keyGroup k₀ = src
    · rw [if_pos (by simp [hg])]
      by_cases hq : k₀ = q
      · simp [lookupT, hq]
      · simp [lookupT, hq, ih]
    · rw [if_neg (by simp [hg])]
      by_cases hq : k₀ = q
      · exact absurd (hq ▸ h) hg
      · simp [lookupT, hq, ih]

theorem srcSlice_setT_of_ne {src k : String} (h : ¬ keyGroup k = src)
    (v : PyVal) (t : Tags) : srcSlice src (setT k v t) = srcSlice src t := by
  induction t with
  | nil => simp [setT, srcSlice, h]
  | cons hd tl ih =>
    rcases hd with ⟨k₀, v₀⟩
    simp only [setT]
    by_cases hk : k₀ = k
    · rw [if_pos hk]
      simp only [srcSlice, List.filter_cons]
      rw [if_neg (by simp [h]), if_neg (by simp [hk, h])]
    · rw [if_neg hk]
      simp only [srcSlice, List.filter_cons] at ih ⊢
      by_cases hg : keyGroup k₀ = src
      · rw [if_pos (by simp [hg]), if_pos (by simp [hg]), ih]
      · rw [if_neg (by simp [hg]), if_neg (by simp [hg]), ih]

theorem srcSlice_eraseT_of_ne {src k : String} (h : ¬ keyGroup k = src)
    (t : Tags) : srcSlice src (eraseT k t) = srcSlice src t := by
  induction t with
  | nil => rfl
  | cons hd tl ih =>
    rcases hd with ⟨k₀, v₀⟩
    simp only [eraseT, List.filter_cons] at ih ⊢
    by_cases hk : k₀ = k
    · rw [if_neg (by simp [hk])]
      rw [ih]
      simp only [srcSlice, List.filter_cons]
      rw [if_neg (by simp [hk, h])]
    · rw [if_pos (by simp [hk])]
      simp only [srcSlice, List.filter_cons] at ih ⊢
      by_cases hg : keyGroup k₀ = src
      · rw [if_pos (by simp [hg]), if_pos (by simp [hg]), ih]
      · rw [if_neg (by simp [hg]), if_neg (by simp [hg]), ih]

/-- The keys an effect touches. -/
def RuleEffect.keys : RuleEffect → List String
  | .writeE k _ => [k]
  | .eraseE k => [k]
  | .noneE => []

theorem effStep_id_of_avoids {src : String} {e : RuleEffect}
    (h : ∀ k ∈ e.keys, ¬ keyGroup k = src) {q : String} (hq : keyGroup q = src)
    (a : Option PyVal) : effStep e q a = a := by
  cases e with
  | writeE k w =>
    have hk := h k (List.mem_singleton.mpr rfl)
    have : ¬ k = q := fun he => hk (he ▸ hq)
    simp [effStep, this]
  | eraseE k =>
    have hk := h k (List.mem_singleton.mpr rfl)
    have : ¬ q = k := fun he => hk (he ▸ hq)
    simp [effStep, this]
  | noneE => rfl

theorem applyEffect_slice_of_avoids {src : String} {e : RuleEffect}
    (h : ∀ k ∈ e.keys, ¬ keyGroup k = src) (t : Tags) :
    srcSlice src (applyEffect e t) = srcSlice src t := by
  cases e with
  | writeE k w => exact srcSlice_setT_of_ne (h k (List.mem_singleton.mpr rfl)) w t
  | eraseE k => exact srcSlice_eraseT_of_ne (h k (List.mem_singleton.mpr rfl)) t
  | noneE => rfl

theorem foldSteps_id_of_avoids {tk : TargetKind} {md : Metadata} {src : String}
    {rs : List WriteRule}
    (h : ∀ r ∈ rs, ∀ k ∈ (ruleEffect tk md r).keys, ¬ keyGroup k = src)
    {q : String} (hq : keyGroup q = src) (a : Option PyVal) :
    foldSteps tk md rs q a = a := by
  induction rs generalizing a with
  | nil => rfl
  | cons r rest ih =>
    have hr := h r (List.mem_cons_self _ _)
    have hrest : ∀ r ∈ rest, ∀ k ∈ (ruleEffect tk md r).keys, ¬ keyGroup k = src :=
      fun r hm => h r (List.mem_cons_of_mem _ hm)
    have hstep : foldSteps tk md (r :: rest) q a
        = foldSteps tk md rest q (effStep (ruleEffect tk md r) q a) := rfl
    rw [hstep, effStep_id_of_avoids hr hq, ih hrest]

theorem runEffects_slice_of_avoids {tk : TargetKind} {md : Metadata} {src : String}
    {rs : List WriteRule}
    (h : ∀ r ∈ rs, ∀ k ∈ (ruleEffect tk md r).keys, ¬ keyGroup k = src)
    (t : Tags) : srcSlice src (runEffects tk md rs t) = srcSlice src t := by
  induction rs generalizing t with
  | nil => rfl
  | cons r rest ih =>
    have hr := h r (List.mem_cons_self _ _)
    have hrest : ∀ r ∈ rest, ∀ k ∈ (ruleEffect tk md r).keys, ¬ keyGroup k = src :=
      fun r hm => h r (List.mem_cons_of_mem _ hm)
    have hstep : runEffects tk md (r :: rest) t
        = runEffects tk md rest (applyEffect (ruleEffect tk md r) t) := rfl
    rw [hstep, ih hrest, applyEffect_slice_of_avoids hr]

theorem mem_sliceVals_filter {src : String} {f : String × PyVal → Bool}
    {t : Tags} {p : PyVal}
    (h : p ∈ (srcSlice src (t.filter f)).map (·.2)) :
    p ∈ (srcSlice src t).map (·.2) := by
  rcases List.mem_map.mp h with ⟨e, he, rfl⟩
  refine List.mem_map_of_mem _ ?_
  rcases List.mem_filter.mp he with ⟨he₁, he₂⟩
  exact List.mem_filter.mpr ⟨List.mem_of_mem_filter he₁, he₂⟩

theorem mem_sliceVals_dropPhase {src : String} {useless : List (String × List Pat)}
    {sel : List String} {t : Tags} {p : PyVal}
    (h : p ∈ (srcSlice src (dropPhase useless sel t)).map (·.2)) :
    p ∈ (srcSlice src t).map (·.2) := by
  induction sel generalizing t with
  | nil => exact h
  | cons ns rest ih =>
    have hstep : dropPhase useless (ns :: rest) t
        = dropPhase useless rest (dropTags (getUseless useless ns) t) := rfl
    rw [hstep] at h
    exact mem_sliceVals_filter (ih h)

theorem mem_descKeys_shape {src q : String} {e : List PyVal}
    (h : q ∈ descKeys src e) :
    ∃ d p, p ∈ e ∧ descOf p = some d ∧ q = src ++ ":" ++ d := by
  rcases List.mem_filterMap.mp h with ⟨p, hp, heq⟩
  rcases Option.map_eq_some'.mp heq with ⟨d, hd, hq⟩
  exact ⟨d, p, hp, hd, hq.symm⟩

theorem mem_descKeys_of {src d : String} {p : PyVal} {e : List PyVal}
    (hp : p ∈ e) (hd : descOf p = some d) : (src ++ ":" ++ d) ∈ descKeys src e :=
  List.mem_filterMap.mpr ⟨p, hp, by rw [hd]; rfl⟩

theorem src_not_mem_descKeys (src : String) (e : List PyVal) :
    src ∉ descKeys src e := by
  intro h
  rcases mem_descKeys_shape h with ⟨d, p, _, _, hq⟩
  exact ne_append_colon src d hq

theorem mem_sliceVals_setT {src k : String} {v p : PyVal} {t : Tags}
    (h : p ∈ (srcSlice src (setT k v t)).map (·.2)) :
    p = v ∨ p ∈ (srcSlice src t).map (·.2) := by
  rcases List.mem_map.mp h with ⟨e, he, rfl⟩
  rcases List.mem_filter.mp he with ⟨he₁, he₂⟩
  rcases mem_setT he₁ with he₃ | he₃
  · exact Or.inl (by rw [he₃])
  · exact Or.inr (List.mem_map_of_mem _ (List.mem_filter.mpr ⟨he₃, he₂⟩))

theorem mem_sliceVals_picDeleteDescs {src : String} {e : List PyVal} {p : PyVal}
    {t : Tags}
    (h : p ∈ (srcSlice src (picDeleteDescs src e t)).map (·.2)) :
    p ∈ (srcSlice src t).map (·.2) := by
  induction e generalizing t with
  | nil => exact h
  | cons p₀ rest ih =>
    cases hd : descOf p₀ with
    | none =>
      have hstep : picDeleteDescs src (p₀ :: rest) t = picDeleteDescs src rest t := by
        simp [picDeleteDescs, hd]
      rw [hstep] at h
      exact ih h
    | some d =>
      have hstep : picDeleteDescs src (p₀ :: rest) t
          = picDeleteDescs src rest (eraseT (src ++ ":" ++ d) t) := by
        simp [picDeleteDescs, hd]
      rw [hstep] at h
      exact mem_sliceVals_filter (ih h)

theorem getallId3_bare {src : String} {v : PyVal} {t : Tags}
    (h : lookupT src t = some v) : getallId3 src t = [v] := by
  unfold getallId3
  rw [h]

theorem getallId3_nonbare {src : String} {t : Tags}
    (h : lookupT src t = Option.none) :
    getallId3 src t = (srcSlice src t).map (·.2) := by
  unfold getallId3
  rw [h]
  rfl

theorem descKeys_of_descFree {src : String} {e : List PyVal}
    (h : ∀ p ∈ e, descOf p = Option.none) : descKeys src e = [] := by
  induction e with
  | nil => rfl
  | cons p rest ih =>
    have hp := h p (List.mem_cons_self _ _)
    simp only [descKeys, List.filterMap_cons, hp]
    exact ih (fun p hm => h p (List.mem_cons_of_mem _ hm))

theorem picDeleteDescs_of_descFree {src : String} {e : List PyVal} {t : Tags}
    (h : ∀ p ∈ e, descOf p = Option.none) : picDeleteDescs src e t = t := by
  induction e generalizing t with
  | nil => rfl
  | cons p rest ih =>
    have hp := h p (List.mem_cons_self _ _)
    have hstep : picDeleteDescs src (p :: rest) t = picDeleteDescs src rest t := by
      simp [picDeleteDescs, hp]
    rw [hstep]
    exact ih (fun p hm => h p (List.mem_cons_of_mem _ hm))

theorem pictureInRun_coverNone {tk : TargetKind} {src : String} {fs : List Filt}
    {md : Metadata} (t : Tags) (h : coverGet md = Option.none) :
    pictureInRun tk src fs md t = .ok t := by
  unfold pictureInRun
  rw [h]

theorem pictureInRun_id3_some {src : String} {fs : List Filt} {md : Metadata}
    {c fc : PyVal} (t : Tags) (hc : coverGet md = some c)
    (hfc : applyChain fs c = some fc) :
    pictureInRun .id3T src fs md t
      = .ok (setT (hashKey fc) fc (picDeleteDescs src (getallId3 src t) t)) := by
  unfold pictureInRun
  rw [hc]
  dsimp only [getallE]
  rw [hfc]
  rfl

theorem pictureInRun_id3_none {src : String} {fs : List Filt} {md : Metadata}
    {c : PyVal} (t : Tags) (hc : coverGet md = some c)
    (hfc : applyChain fs c = Option.none) :
    pictureInRun .id3T src fs md t
      = .ok (picDeleteDescs src (getallId3 src t) t) := by
  unfold pictureInRun
  rw [hc]
  dsimp only [getallE]
  rw [hfc]

theorem pictureInRun_plain_some {src : String} {fs : List Filt} {md : Metadata}
    {c fc : PyVal} {E : List PyVal} (t : Tags) (hc : coverGet md = some c)
    (hE : getallPlainE src t = .ok E) (hfc : applyChain fs c = some fc) :
    pictureInRun .plainT src fs md t
      = .ok (setT src fc (picDeleteDescs src E t)) := by
  unfold pictureInRun
  rw [hc]
  dsimp only [getallE]
  rw [hE]
  dsimp only
  rw [hfc]
  rfl

theorem pictureInRun_plain_none {src : String} {fs : List Filt} {md : Metadata}
    {c : PyVal} {E : List PyVal} (t : Tags) (hc : coverGet md = some c)
    (hE : getallPlainE src t = .ok E) (hfc : applyChain fs c = Option.none) :
    pictureInRun .plainT src fs md t = .ok (picDeleteDescs src E t) := by
  unfold pictureInRun
  rw [hc]
  dsimp only [getallE]
  rw [hE]
  dsimp only
  rw [hfc]

theorem danceAux {useless : List (String × List Pat)} {sel : List String}
    {q : String} {u x y : Tags}
    (hy : lookupT q y = if dropMatch useless sel q then Option.none else lookupT q u)
    (hx : dropMatch useless sel q = true → lookupT q x = Option.none)
    (hu : lookupT q u = lookupT q x) :
    lookupT q y = lookupT q x := by
  rw [hy]
  by_cases hdm : dropMatch useless sel q
  · rw [if_pos hdm, hx hdm]
  · rw [if_neg hdm, hu]

/-- Idempotence core for `PictureIn` on an ID3 container: if the rule has
run once producing `u`, then running it on any container `y` whose
`src`-namespace agrees with `u` up to the drop phase yields the same
`src`-namespace again. -/
theorem picIdem_id3 {src : String} {fs : List Filt} {md : Metadata}
    {useless : List (String × List Pat)} {sel : List String} {x y u : Tags}
    (hsrc : keyGroup src = src)
    (hshape : ∀ c w, applyChain fs c = some w →
      ∃ d, descOf w = some d ∧ hashKey w = src ++ ":" ++ d)
    (hPx : pictureInRun .id3T src fs md x = .ok u)
    (hylookup : ∀ q, keyGroup q = src →
      lookupT q y = if dropMatch useless sel q then Option.none else lookupT q u)
    (hsrckey : dropMatch useless sel src = false)
    (hxdrop : ∀ q, keyGroup q = src → dropMatch useless sel q = true →
      lookupT q x = Option.none)
    (hsub : ∀ p, p ∈ (srcSlice src y).map (·.2) → p ∈ (srcSlice src u).map (·.2)) :
    ∃ u₂, pictureInRun .id3T src fs md y = .ok u₂
      ∧ ∀ q, keyGroup q = src → lookupT q u₂ = lookupT q u := by
  cases hcov : coverGet md with
  | none =>
    have hux : u = x := by
      rw [pictureInRun_coverNone x hcov] at hPx
      exact (Except.ok.injEq .. ▸ hPx).symm
    refine ⟨y, pictureInRun_coverNone y hcov, ?_⟩
    intro q hq
    subst hux
    exact danceAux (hylookup q hq) (hxdrop q hq) rfl
  | some c =>
    have hnotdm : ¬ dropMatch useless sel src = true := by simp [hsrckey]
    cases hfc : applyChain fs c with
    | some fc =>
      rcases hshape c fc hfc with ⟨dfc, hdesc, hwk⟩
      have hwkNeSrc : hashKey fc ≠ src := by
        rw [hwk]
        exact (ne_append_colon src dfc).symm
      have hu : u = setT (hashKey fc) fc (picDeleteDescs src (getallId3 src x) x) := by
        rw [pictureInRun_id3_some x hcov hfc] at hPx
        exact (Except.ok.injEq .. ▸ hPx).symm
      have husrc : lookupT src u = lookupT src x := by
        rw [hu, lookup_setT, if_neg hwkNeSrc, lookup_picDeleteDescs,
          if_neg (src_not_mem_descKeys src _)]
      have hysrc : lookupT src y = lookupT src x := by
        rw [hylookup src hsrc, if_neg hnotdm, husrc]
      cases hbx : lookupT src x with
      | some v₀ =>
        have hEx : getallId3 src x = [v₀] := getallId3_bare hbx
        have hEy : getallId3 src y = [v₀] := getallId3_bare (by rw [hysrc, hbx])
        refine ⟨_, pictureInRun_id3_some y hcov hfc, ?_⟩
        intro q hq
        have hu₂q : lookupT q (setT (hashKey fc) fc
            (picDeleteDescs src (getallId3 src y) y))
            = if hashKey fc = q then some fc
              else if q ∈ descKeys src [v₀] then Option.none else lookupT q y := by
          rw [hEy, lookup_setT, lookup_picDeleteDescs]
        have huq : lookupT q u
            = if hashKey fc = q then some fc
              else if q ∈ descKeys src [v₀] then Option.none else lookupT q x := by
          rw [hu, hEx, lookup_setT, lookup_picDeleteDescs]
        rw [hu₂q, huq]
        by_cases hqwk : hashKey fc = q
        · rw [if_pos hqwk, if_pos hqwk]
        · rw [if_neg hqwk, if_neg hqwk]
          by_cases hdk : q ∈ descKeys src [v₀]
          · rw [if_pos hdk, if_pos hdk]
          · rw [if_neg hdk, if_neg hdk]
            refine danceAux (hylookup q hq) (hxdrop q hq) ?_
            rw [huq, if_neg hqwk, if_neg hdk]
      | none =>
        have hEx : getallId3 src x = (srcSlice src x).map (·.2) :=
          getallId3_nonbare hbx
        have hEy : getallId3 src y = (srcSlice src y).map (·.2) :=
          getallId3_nonbare (by rw [hysrc, hbx])
        refine ⟨_, pictureInRun_id3_some y hcov hfc, ?_⟩
        intro q hq
        have huq : lookupT q u
            = if hashKey fc = q then some fc
              else if q ∈ descKeys src (getallId3 src x) then Option.none
              else lookupT q x := by
          rw [hu, lookup_setT, lookup_picDeleteDescs]
        have hu₂q : lookupT q (setT (hashKey fc) fc
            (picDeleteDescs src (getallId3 src y) y))
            = if hashKey fc = q then some fc
              else if q ∈ descKeys src (getallId3 src y) then Option.none
              else lookupT q y := by
          rw [lookup_setT, lookup_picDeleteDescs]
        rw [hu₂q, huq]
        by_cases hqwk : hashKey fc = q
        · rw [if_pos hqwk, if_pos hqwk]
        · rw [if_neg hqwk, if_neg hqwk]
          by_cases hdky : q ∈ descKeys src (getallId3 src y)
          · rw [if_pos hdky]
            rcases mem_descKeys_shape (hEy ▸ hdky) with ⟨d, p, hpE, hpd, hqd⟩
            have hpu : p ∈ (srcSlice src u).map (·.2) := hsub p hpE
            rw [hu] at hpu
            rcases mem_sliceVals_setT hpu with rfl | hpu₁
            · exfalso
              rw [hdesc] at hpd
              have hddfc : d = dfc := (Option.some.inj hpd).symm
              exact hqwk (by rw [hwk, ← hddfc, hqd])
            · have hpx : p ∈ (srcSlice src x).map (·.2) :=
                mem_sliceVals_picDeleteDescs hpu₁
              have hdkx : q ∈ descKeys src (getallId3 src x) := by
                rw [hEx, hqd]
                exact mem_descKeys_of hpx hpd
              rw [if_pos hdkx]
          · rw [if_neg hdky]
            by_cases hdkx : q ∈ descKeys src (getallId3 src x)
            · rw [if_pos hdkx]
              rw [hylookup q hq]
              by_cases hdm : dropMatch useless sel q
              · rw [if_pos hdm]
              · rw [if_neg hdm, huq, if_neg hqwk, if_pos hdkx]
            · rw [if_neg hdkx]
              refine danceAux (hylookup q hq) (hxdrop q hq) ?_
              rw [huq, if_neg hqwk, if_neg hdkx]
    | none =>
      have hu : u = picDeleteDescs src (getallId3 src x) x := by
        rw [pictureInRun_id3_none x hcov hfc] at hPx
        exact (Except.ok.injEq .. ▸ hPx).symm
      have husrc : lookupT src u = lookupT src x := by
        rw [hu, lookup_picDeleteDescs, if_neg (src_not_mem_descKeys src _)]
      have hysrc : lookupT src y = lookupT src x := by
        rw [hylookup src hsrc, if_neg hnotdm, husrc]
      cases hbx : lookupT src x with
      | some v₀ =>
        have hEx : getallId3 src x = [v₀] := getallId3_bare hbx
        have hEy : getallId3 src y = [v₀] := getallId3_bare (by rw [hysrc, hbx])
        refine ⟨_, pictureInRun_id3_none y hcov hfc, ?_⟩
        intro q hq
        have hu₂q : lookupT q (picDeleteDescs src (getallId3 src y) y)
            = if q ∈ descKeys src [v₀] then Option.none else lookupT q y := by
          rw [hEy, lookup_picDeleteDescs]
        have huq : lookupT q u
            = if q ∈ descKeys src [v₀] then Option.none else lookupT q x := by
          rw [hu, hEx, lookup_picDeleteDescs]
        rw [hu₂q, huq]
        by_cases hdk : q ∈ descKeys src [v₀]
        · rw [if_pos hdk, if_pos hdk]
        · rw [if_neg hdk, if_neg hdk]
          refine danceAux (hylookup q hq) (hxdrop q hq) ?_
          rw [huq, if_neg hdk]
      | none =>
        have hEx : getallId3 src x = (srcSlice src x).map (·.2) :=
          getallId3_nonbare hbx
        have hEy : getallId3 src y = (srcSlice src y).map (·.2) :=
          getallId3_nonbare (by rw [hysrc, hbx])
        refine ⟨_, pictureInRun_id3_none y hcov hfc, ?_⟩
        intro q hq
        have huq : lookupT q u
            = if q ∈ descKeys src (getallId3 src x) then Option.none
              else lookupT q x := by
          rw [hu, lookup_picDeleteDescs]
        have hu₂q : lookupT q (picDeleteDescs src (getallId3 src y) y)
            = if q ∈ descKeys src (getallId3 src y) then Option.none
              else lookupT q y := by
          rw [lookup_picDeleteDescs]
        rw [hu₂q, huq]
        by_cases hdky : q ∈ descKeys src (getallId3 src y)
        · rw [if_pos hdky]
          rcases mem_descKeys_shape (hEy ▸ hdky) with ⟨d, p, hpE, hpd, hqd⟩
          have hpu : p ∈ (srcSlice src u).map (·.2) := hsub p hpE
          rw [hu] at hpu
          have hpx : p ∈ (srcSlice src x).map (·.2) :=
            mem_sliceVals_picDeleteDescs hpu
          have hdkx : q ∈ descKeys src (getallId3 src x) := by
            rw [hEx, hqd]
            exact mem_descKeys_of hpx hpd
          rw [if_pos hdkx]
        · rw [if_neg hdky]
          by_cases hdkx : q ∈ descKeys src (getallId3 src x)
          · rw [if_pos hdkx]
            rw [hylookup q hq]
            by_cases hdm : dropMatch useless sel q
            · rw [if_pos hdm]
            · rw [if_neg hdm, huq, if_pos hdkx]
          · rw [if_neg hdkx]
            refine danceAux (hylookup q hq) (hxdrop q hq) ?_
            rw [huq, if_neg hdkx]

/-- Idempotence core for `PictureIn` on a plain (MP4/Vorbis) container: the
filter chains for these dialects emit a desc-free list, so the second run's
delete phase is a no-op and the write lands on the same bare key. -/
theorem picIdem_plain {src : String} {fs : List Filt} {md : Metadata}
    {useless : List (String × List Pat)} {sel : List String} {x y u : Tags}
    (hsrc : keyGroup src = src)
    (hshape : ∀ c w, applyChain fs c = some w →
      ∃ xs, w = PyVal.list xs ∧ ∀ p ∈ xs, descOf p = Option.none)
    (hPx : pictureInRun .plainT src fs md x = .ok u)
    (hylookup : ∀ q, keyGroup q = src →
      lookupT q y = if dropMatch useless sel q then Option.none else lookupT q u)
    (hsrckey : dropMatch useless sel src = false)
    (hxdrop : ∀ q, keyGroup q = src → dropMatch useless sel q = true →
      lookupT q x = Option.none) :
    ∃ u₂, pictureInRun .plainT src fs md y = .ok u₂
      ∧ ∀ q, keyGroup q = src → lookupT q u₂ = lookupT q u := by
  cases hcov : coverGet md with
  | none =>
    have hux : u = x := by
      rw [pictureInRun_coverNone x hcov] at hPx
      exact (Except.ok.injEq .. ▸ hPx).symm
    refine ⟨y, pictureInRun_coverNone y hcov, ?_⟩
    intro q hq
    subst hux
    exact danceAux (hylookup q hq) (hxdrop q hq) rfl
  | some c =>
    have hnotdm : ¬ dropMatch useless sel src = true := by simp [hsrckey]
    cases hEx : getallPlainE src x with
    | error e =>
      exfalso
      unfold pictureInRun at hPx
      rw [hcov] at hPx
      dsimp only [getallE] at hPx
      rw [hEx] at hPx
      exact Except.noConfusion hPx
    | ok Ex =>
      cases hfc : applyChain fs c with
      | some fc =>
        rcases hshape c fc hfc with ⟨xs, rfl, hfree⟩
        have hu : u = setT src (PyVal.list xs) (picDeleteDescs src Ex x) := by
          rw [pictureInRun_plain_some x hcov hEx hfc] at hPx
          exact (Except.ok.injEq .. ▸ hPx).symm
        have husrc : lookupT src u = some (PyVal.list xs) := by
          rw [hu, lookup_setT, if_pos rfl]
        have hly : lookupT src y = some (PyVal.list xs) := by
          rw [hylookup src hsrc, if_neg hnotdm, husrc]
        have hgy : getallPlainE src y
            = .ok (if pyTruthy (PyVal.list xs) then xs else []) := by
          unfold getallPlainE
          rw [hly]
          dsimp only
          by_cases ht : pyTruthy (PyVal.list xs)
          · rw [if_pos ht, if_pos ht]
            rfl
          · rw [if_neg ht, if_neg ht]
        have hfreeEy : ∀ p ∈ (if pyTruthy (PyVal.list xs) then xs else []),
            descOf p = Option.none := by
          intro p hp
          by_cases ht : pyTruthy (PyVal.list xs)
          · rw [if_pos ht] at hp
            exact hfree p hp
          · rw [if_neg ht] at hp
            exact absurd hp (List.not_mem_nil p)
        refine ⟨_, pictureInRun_plain_some y hcov hgy hfc, ?_⟩
        intro q hq
        rw [picDeleteDescs_of_descFree hfreeEy]
        rw [lookup_setT, hu, lookup_setT, lookup_picDeleteDescs]
        by_cases hqs : src = q
        · rw [if_pos hqs, if_pos hqs]
        · rw [if_neg hqs, if_neg hqs]
          rw [hylookup q hq]
          by_cases hdm : dropMatch useless sel q
          · rw [if_pos hdm, hxdrop q hq hdm]
            by_cases hdk : q ∈ descKeys src Ex
            · rw [if_pos hdk]
            · rw [if_neg hdk]
          · rw [if_neg hdm, hu, lookup_setT, if_neg hqs, lookup_picDeleteDescs]
      | none =>
        have hu : u = picDeleteDescs src Ex x := by
          rw [pictureInRun_plain_none x hcov hEx hfc] at hPx
          exact (Except.ok.injEq .. ▸ hPx).symm
        have husrc : lookupT src u = lookupT src x := by
          rw [hu, lookup_picDeleteDescs, if_neg (src_not_mem_descKeys src _)]
        have hysrc : lookupT src y = lookupT src x := by
          rw [hylookup src hsrc, if_neg hnotdm, husrc]
        have hgy : getallPlainE src y = .ok Ex := by
          have : getallPlainE src y = getallPlainE src x := by
            unfold getallPlainE
            rw [hysrc]
          rw [this, hEx]
        refine ⟨_, pictureInRun_plain_none y hcov hgy hfc, ?_⟩
        intro q hq
        rw [lookup_picDeleteDescs, hu, lookup_picDeleteDescs]
        by_cases hdk : q ∈ descKeys src Ex
        · rw [if_pos hdk, if_pos hdk]
        · rw [if_neg hdk, if_neg hdk]
          refine danceAux (hylookup q hq) (hxdrop q hq) ?_
          rw [hu, lookup_picDeleteDescs, if_neg hdk]

theorem not_mem_descKeys_of_group {src q : String} {e : List PyVal}
    (hsrc : keyGroup src = src) (hq : keyGroup q ≠ src) :
    q ∉ descKeys src e := by
  intro h
  rcases mem_descKeys_shape h with ⟨d, p, _, _, hqd⟩
  exact hq (by rw [hqd]; exact keyGroup_append_colon hsrc d)

/-- `PictureIn` on an ID3 container touches only keys of the source
namespace: any key from another group keeps its value. -/
theorem pictureInRun_preserves_id3 {src : String} {fs : List Filt}
    {md : Metadata} {t u : Tags} {q : String}
    (hsrc : keyGroup src = src)
    (hshape : ∀ c w, applyChain fs c = some w →
      ∃ d, descOf w = some d ∧ hashKey w = src ++ ":" ++ d)
    (h : pictureInRun .id3T src fs md t = .ok u)
    (hq : keyGroup q ≠ src) :
    lookupT q u = lookupT q t := by
  cases hcov : coverGet md with
  | none =>
    rw [pictureInRun_coverNone t hcov] at h
    have hu : t = u := by injection h
    rw [← hu]
  | some c =>
    cases hfc : applyChain fs c with
    | some fc =>
      rcases hshape c fc hfc with ⟨dfc, _, hwk⟩
      have hwkq : hashKey fc ≠ q := by
        intro hk
        exact hq (by rw [← hk, hwk]; exact keyGroup_append_colon hsrc dfc)
      rw [pictureInRun_id3_some t hcov hfc] at h
      have hu : setT (hashKey fc) fc (picDeleteDescs src (getallId3 src t) t) = u := by
        injection h
      rw [← hu, lookup_setT, if_neg hwkq,
        lookup_picDeleteDescs, if_neg (not_mem_descKeys_of_group hsrc hq)]
    | none =>
      rw [pictureInRun_id3_none t hcov hfc] at h
      have hu : picDeleteDescs src (getallId3 src t) t = u := by injection h
      rw [← hu, lookup_picDeleteDescs,
        if_neg (not_mem_descKeys_of_group hsrc hq)]

/-- `PictureIn` on a plain container touches only keys of the source
namespace. -/
theorem pictureInRun_preserves_plain {src : String} {fs : List Filt}
    {md : Metadata} {t u : Tags} {q : String}
    (hsrc : keyGroup src = src)
    (h : pictureInRun .plainT src fs md t = .ok u)
    (hq : keyGroup q ≠ src) :
    lookupT q u = lookupT q t := by
  have hsq : src ≠ q := by
    intro hk
    exact hq (by rw [← hk, hsrc])
  cases hcov : coverGet md with
  | none =>
    rw [pictureInRun_coverNone t hcov] at h
    have hu : t = u := by injection h
    rw [← hu]
  | some c =>
    cases hE : getallPlainE src t with
    | error e =>
      exfalso
      unfold pictureInRun at h
      rw [hcov] at h
      dsimp only [getallE] at h
      rw [hE] at h
      exact Except.noConfusion h
    | ok E =>
      cases hfc : applyChain fs c with
      | some fc =>
        rw [pictureInRun_plain_some t hcov hE hfc] at h
        have hu : setT src fc (picDeleteDescs src E t) = u := by injection h
        rw [← hu, lookup_setT, if_neg hsq,
          lookup_picDeleteDescs, if_neg (not_mem_descKeys_of_group hsrc hq)]
      | none =>
        rw [pictureInRun_plain_none t hcov hE hfc] at h
        have hu : picDeleteDescs src E t = u := by injection h
        rw [← hu, lookup_picDeleteDescs,
          if_neg (not_mem_descKeys_of_group hsrc hq)]

theorem applyChain_singleton {f : Filt} {c w : PyVal}
    (h : applyChain [f] c = some w) : f c = some w := by
  unfold applyChain at h
  cases hv : f c with
  | none => rw [hv] at h; exact Option.noConfusion h
  | some v =>
    rw [hv] at h
    exact h

theorem applyChain_cons {f : Filt} {fs : List Filt} {c w : PyVal}
    (h : applyChain (f :: fs) c = some w) :
    ∃ v, f c = some v ∧ applyChain fs v = some w := by
  unfold applyChain at h
  cases hv : f c with
  | none => rw [hv] at h; exact Option.noConfusion h
  | some v =>
    rw [hv] at h
    exact ⟨v, rfl, h⟩

/-- A chain ending in `ID3In(cls, desc)` only ever produces frames of that
class and description. -/
theorem chain_id3In_shape {fs : List Filt} {cls : String} {desc : Option String}
    {c w : PyVal} (h : applyChain (fs ++ [id3In cls desc]) c = some w) :
    ∃ v, w = .frame cls v desc := by
  induction fs generalizing c with
  | nil =>
    have h' := applyChain_singleton h
    exact ⟨c, (Option.some.inj h').symm⟩
  | cons f rest ih =>
    rcases applyChain_cons h with ⟨v, _, hw⟩
    exact ih hw

/-- The `HashKey` of every frame a given `ID3In` filter can produce. -/
def frameKey (cls : String) (desc : Option String) : String :=
  if cls = "COMM" then "COMM:" ++ desc.getD "" ++ ":XXX" else cls

theorem moveEffect_keys_plain (md : Metadata) (src tgt : String) (fs : List Filt)
    (k : String) (hk : k ∈ (moveEffect .plainT md src tgt fs).keys) : k = tgt := by
  unfold moveEffect at hk
  cases hgt : getTag src md with
  | none =>
    rw [hgt] at hk
    exact List.mem_singleton.mp hk
  | some v =>
    rw [hgt] at hk
    dsimp only at hk
    cases hc : applyChain fs v with
    | none =>
      rw [hc] at hk
      exact List.mem_singleton.mp hk
    | some w =>
      rw [hc] at hk
      exact List.mem_singleton.mp hk

theorem pair2Effect_keys_plain (md : Metadata) (k0 k1 tgt : String) (fs : List Filt)
    (k : String) (hk : k ∈ (pair2Effect .plainT md k0 k1 tgt fs).keys) : k = tgt := by
  unfold pair2Effect at hk
  cases hgt : toPairGet md k0 with
  | none =>
    rw [hgt] at hk
    exact List.mem_singleton.mp hk
  | some n0 =>
    rw [hgt] at hk
    dsimp only at hk
    cases hc : applyChain fs (.list [.int n0, .int ((toPairGet md k1).getD 0)]) with
    | none =>
      rw [hc] at hk
      exact List.mem_singleton.mp hk
    | some w =>
      rw [hc] at hk
      exact List.mem_singleton.mp hk

theorem sortEffect_keys_plain (md : Metadata) (tgt : String) (fs : List Filt)
    (k : String) (hk : k ∈ (sortEffect .plainT md tgt fs).keys) : k = tgt := by
  unfold sortEffect at hk
  cases hgt : albumsortCand md "grouping" with
  | none =>
    rw [hgt] at hk
    exact absurd hk (List.not_mem_nil k)
  | some g =>
    rw [hgt] at hk
    dsimp only at hk
    by_cases hlen :
        (g :: ((albumsortCand md "albumsort").toList
          ++ (albumsortCand md "album").toList)).length = 1
    · rw [if_pos hlen] at hk
      exact absurd hk (List.not_mem_nil k)
    · rw [if_neg hlen] at hk
      cases hc : applyChain fs (albumsortJoined
          (g :: ((albumsortCand md "albumsort").toList
            ++ (albumsortCand md "album").toList))) with
      | none =>
        rw [hc] at hk
        exact absurd hk (List.not_mem_nil k)
      | some w =>
        rw [hc] at hk
        exact List.mem_singleton.mp hk

theorem moveEffect_keys_id3 (md : Metadata) (src tgt : String) (fs : List Filt)
    (cls : String) (desc : Option String) (k : String)
    (hk : k ∈ (moveEffect .id3T md src tgt (fs ++ [id3In cls desc])).keys) :
    k = tgt ∨ k = frameKey cls desc := by
  unfold moveEffect at hk
  cases hgt : getTag src md with
  | none =>
    rw [hgt] at hk
    exact Or.inl (List.mem_singleton.mp hk)
  | some v =>
    rw [hgt] at hk
    dsimp only at hk
    cases hc : applyChain (fs ++ [id3In cls desc]) v with
    | none =>
      rw [hc] at hk
      exact Or.inl (List.mem_singleton.mp hk)
    | some w =>
      rw [hc] at hk
      rcases chain_id3In_shape hc with ⟨v', rfl⟩
      exact Or.inr (List.mem_singleton.mp hk)

theorem pair2Effect_keys_id3 (md : Metadata) (k0 k1 tgt : String) (fs : List Filt)
    (cls : String) (desc : Option String) (k : String)
    (hk : k ∈ (pair2Effect .id3T md k0 k1 tgt (fs ++ [id3In cls desc])).keys) :
    k = tgt ∨ k = frameKey cls desc := by
  unfold pair2Effect at hk
  cases hgt : toPairGet md k0 with
  | none =>
    rw [hgt] at hk
    exact Or.inl (List.mem_singleton.mp hk)
  | some n0 =>
    rw [hgt] at hk
    dsimp only at hk
    cases hc : applyChain (fs ++ [id3In cls desc])
        (.list [.int n0, .int ((toPairGet md k1).getD 0)]) with
    | none =>
      rw [hc] at hk
      exact Or.inl (List.mem_singleton.mp hk)
    | some w =>
      rw [hc] at hk
      rcases chain_id3In_shape hc with ⟨v', rfl⟩
      exact Or.inr (List.mem_singleton.mp hk)

theorem sortEffect_keys_id3 (md : Metadata) (tgt : String) (fs : List Filt)
    (cls : String) (desc : Option String) (k : String)
    (hk : k ∈ (sortEffect .id3T md tgt (fs ++ [id3In cls desc])).keys) :
    k = tgt ∨ k = frameKey cls desc := by
  unfold sortEffect at hk
  cases hgt : albumsortCand md "grouping" with
  | none =>
    rw [hgt] at hk
    exact absurd hk (List.not_mem_nil k)
  | some g =>
    rw [hgt] at hk
    dsimp only at hk
    by_cases hlen :
        (g :: ((albumsortCand md "albumsort").toList
          ++ (albumsortCand md "album").toList)).length = 1
    · rw [if_pos hlen] at hk
      exact absurd hk (List.not_mem_nil k)
    · rw [if_neg hlen] at hk
      cases hc : applyChain (fs ++ [id3In cls desc]) (albumsortJoined
          (g :: ((albumsortCand md "albumsort").toList
            ++ (albumsortCand md "album").toList))) with
      | none =>
        rw [hc] at hk
        exact absurd hk (List.not_mem_nil k)
      | some w =>
        rw [hc] at hk
        rcases chain_id3In_shape hc with ⟨v', rfl⟩
        exact Or.inr (List.mem_singleton.mp hk)

theorem lookup_mem {β : Type} {l : List (String × β)} {a : String} {b : β}
    (h : List.lookup a l = some b) : (a, b) ∈ l := by
  induction l with
  | nil => exact Option.noConfusion h
  | cons e rest ih =>
    rcases e with ⟨k, v⟩
    simp only [List.lookup] at h
    split at h
    · rename_i heq
      have hak : a = k := eq_of_beq heq
      have hvb : v = b := Option.some.inj h
      rw [← hvb, hak]
      exact List.mem_cons_self _ _
    · exact List.mem_cons_of_mem _ (ih h)

theorem getUseless_any_false {useless : List (String × List Pat)} {k : String}
    (h : ∀ e ∈ useless, e.2.any (fun p => p.matches k) = false) (ns : String) :
    (getUseless useless ns).any (fun p => p.matches k) = false := by
  unfold getUseless
  cases hl : List.lookup ns useless with
  | none => rfl
  | some pats => exact h (ns, pats) (lookup_mem hl)

/-- A key no drop-group pattern of a mapping can ever match survives the
drop phase for every selection. -/
theorem dropMatch_eq_false {useless : List (String × List Pat)} {k : String}
    (h : ∀ e ∈ useless, e.2.any (fun p => p.matches k) = false) (sel : List String) :
    dropMatch useless sel k = false := by
  unfold dropMatch
  rw [List.any_eq_false]
  intro ns _
  rw [getUseless_any_false h ns]
  exact Bool.false_ne_true

theorem toApicF_shape (decode : List Nat → Option ImgStream) {c w : PyVal}
    (h : toApicF decode c = some w) :
    descOf w = some "" ∧ hashKey w = "APIC" ++ ":" ++ "" := by
  unfold toApicF at h
  cases c with
  | bytes b =>
    dsimp only at h
    cases hd : decode b with
    | none =>
      rw [hd] at h
      exact Option.noConfusion h
    | some c' =>
      rw [hd] at h
      rw [← Option.some.inj h]
      exact ⟨rfl, rfl⟩
  | img c' =>
    rw [← Option.some.inj h]
    exact ⟨rfl, rfl⟩
  | pic p =>
    dsimp only at h
    cases hd : p.data with
    | none =>
      rw [hd] at h
      exact Option.noConfusion h
    | some d =>
      rw [hd] at h
      rw [← Option.some.inj h]
      exact ⟨rfl, rfl⟩
  | none => exact Option.noConfusion h
  | str s => exact Option.noConfusion h
  | int n => exact Option.noConfusion h
  | list xs => exact Option.noConfusion h
  | tuple xs => exact Option.noConfusion h
  | frame cls v d => exact Option.noConfusion h
  | stamp y => exact Option.noConfusion h

/-- The shape hypothesis for the MP3 picture rule: `ToApic` always yields
an `APIC` frame with empty description. -/
theorem mp3_pic_shape (decode : List Nat → Option ImgStream) :
    ∀ c w, applyChain [toApicF decode] c = some w →
      ∃ d, descOf w = some d ∧ hashKey w = "APIC" ++ ":" ++ d := by
  intro c w h
  have h' := applyChain_singleton h
  exact ⟨"", (toApicF_shape decode h').1, (toApicF_shape decode h').2⟩

theorem toMp4CoverF_shape (decode : List Nat → Option ImgStream) {c v : PyVal}
    (h : toMp4CoverF decode c = some v) :
    ∃ p, v = .pic p ∧ p.desc = Option.none := by
  unfold toMp4CoverF at h
  cases c with
  | bytes b =>
    dsimp only at h
    cases hd : decode b with
    | none =>
      rw [hd] at h
      exact Option.noConfusion h
    | some c' =>
      rw [hd] at h
      exact ⟨_, (Option.some.inj h).symm, rfl⟩
  | img c' =>
    dsimp only at h
    exact ⟨_, (Option.some.inj h).symm, rfl⟩
  | none => exact Option.noConfusion h
  | str s => exact Option.noConfusion h
  | int n => exact Option.noConfusion h
  | list xs => exact Option.noConfusion h
  | tuple xs => exact Option.noConfusion h
  | frame cls v' d => exact Option.noConfusion h
  | pic p => exact Option.noConfusion h
  | stamp y => exact Option.noConfusion h

theorem toVorbisCoverF_shape (decode : List Nat → Option ImgStream) {c v : PyVal}
    (h : toVorbisCoverF decode c = some v) : ∃ s, v = .str s := by
  unfold toVorbisCoverF at h
  cases c with
  | bytes b =>
    dsimp only at h
    cases hd : decode b with
    | none =>
      rw [hd] at h
      exact Option.noConfusion h
    | some c' =>
      rw [hd] at h
      exact ⟨_, (Option.some.inj h).symm⟩
  | img c' => exact ⟨_, (Option.some.inj h).symm⟩
  | none => exact Option.noConfusion h
  | str s => exact Option.noConfusion h
  | int n => exact Option.noConfusion h
  | list xs => exact Option.noConfusion h
  | tuple xs => exact Option.noConfusion h
  | frame cls v' d => exact Option.noConfusion h
  | pic p => exact Option.noConfusion h
  | stamp y => exact Option.noConfusion h

theorem toList_shape {ne : Bool} {v w : PyVal} (h : toList ne v = some w) :
    ∃ xs, w = .list xs ∧ ∀ p ∈ xs, p ∈ listFrame v := by
  unfold toList at h
  dsimp only at h
  split at h
  · exact Option.noConfusion h
  · refine ⟨_, (Option.some.inj h).symm, ?_⟩
    intro p hp
    exact List.mem_of_mem_filter hp

/-- The shape hypothesis for the MP4 picture rule: the chain output is a
list of `MP4Cover` values, none of which has a `desc` attribute. -/
theorem mp4_pic_shape (decode : List Nat → Option ImgStream) :
    ∀ c w, applyChain [toMp4CoverF decode, toList true] c = some w →
      ∃ xs, w = PyVal.list xs ∧ ∀ p ∈ xs, descOf p = Option.none := by
  intro c w h
  rcases applyChain_cons h with ⟨v, hv, hw⟩
  have hw' := applyChain_singleton hw
  rcases toMp4CoverF_shape decode hv with ⟨pp, rfl, hdesc⟩
  rcases toList_shape hw' with ⟨xs, rfl, hmem⟩
  refine ⟨xs, rfl, ?_⟩
  intro p hp
  have hlf := hmem p hp
  have hl : listFrame (PyVal.pic pp) = [PyVal.pic pp] := rfl
  rw [hl] at hlf
  rw [List.mem_singleton.mp hlf]
  exact hdesc

/-- The shape hypothesis for the Ogg picture rule: the chain output is a
list of base64 strings, none of which has a `desc` attribute. -/
theorem ogg_pic_shape (decode : List Nat → Option ImgStream) :
    ∀ c w, applyChain [toVorbisCoverF decode, toList true] c = some w →
      ∃ xs, w = PyVal.list xs ∧ ∀ p ∈ xs, descOf p = Option.none := by
  intro c w h
  rcases applyChain_cons h with ⟨v, hv, hw⟩
  have hw' := applyChain_singleton hw
  rcases toVorbisCoverF_shape decode hv with ⟨s, rfl⟩
  rcases toList_shape hw' with ⟨xs, rfl, hmem⟩
  refine ⟨xs, rfl, ?_⟩
  intro p hp
  have hlf := hmem p hp
  have hl : listFrame (PyVal.str s) = [PyVal.str s] := rfl
  rw [hl] at hlf
  rw [List.mem_singleton.mp hlf]
  rfl

/-- One `export` pass over an ID3 container — drop phase followed by the
picture rule and the move-like rules — is idempotent up to dictionary
extensionality, provided the move-like rules never touch the picture
namespace and no drop pattern can match the picture source key. -/
theorem runRulesIdem_id3 {md : Metadata} {src : String} {fs : List Filt}
    {rest : List WriteRule} {useless : List (String × List Pat)}
    {sel : List String} {t t₁ : Tags}
    (hsrc : keyGroup src = src)
    (hshape : ∀ c w, applyChain fs c = some w →
      ∃ d, descOf w = some d ∧ hashKey w = src ++ ":" ++ d)
    (hrest : ∀ r ∈ rest, r.isMoveLike = true)
    (hAvoid : ∀ r ∈ rest, ∀ k ∈ (ruleEffect .id3T md r).keys, ¬ keyGroup k = src)
    (hsrckey : ∀ s, dropMatch useless s src = false)
    (h1 : runWriteRules .id3T md (.picture src fs :: rest)
      (dropPhase useless sel t) = .ok t₁) :
    ∃ t₂, runWriteRules .id3T md (.picture src fs :: rest)
        (dropPhase useless sel t₁) = .ok t₂
      ∧ ∀ q, lookupT q t₂ = lookupT q t₁ := by
  have htk : TargetKind.id3T ≠ TargetKind.metaT := by decide
  unfold runWriteRules at h1
  dsimp only [applyWriteRule] at h1
  cases hu : pictureInRun .id3T src fs md (dropPhase useless sel t) with
  | error e =>
    rw [hu] at h1
    exact Except.noConfusion h1
  | ok u =>
    rw [hu] at h1
    dsimp only at h1
    rw [runWriteRules_moveLike htk md hrest u] at h1
    have ht₁ : runEffects .id3T md rest u = t₁ := by injection h1
    have hyl : ∀ q, keyGroup q = src → lookupT q (dropPhase useless sel t₁)
        = if dropMatch useless sel q then Option.none else lookupT q u := by
      intro q hq
      rw [lookup_dropPhase]
      by_cases hdm : dropMatch useless sel q
      · rw [if_pos hdm, if_pos hdm]
      · rw [if_neg hdm, if_neg hdm, ← ht₁, lookup_runEffects,
          foldSteps_id_of_avoids hAvoid hq]
    have hxd : ∀ q, keyGroup q = src → dropMatch useless sel q = true →
        lookupT q (dropPhase useless sel t) = Option.none := by
      intro q _ hdm
      rw [lookup_dropPhase, if_pos hdm]
    have hsub : ∀ p, p ∈ (srcSlice src (dropPhase useless sel t₁)).map (·.2) →
        p ∈ (srcSlice src u).map (·.2) := by
      intro p hp
      have hp₁ : p ∈ (srcSlice src t₁).map (·.2) := mem_sliceVals_dropPhase hp
      rw [← ht₁, runEffects_slice_of_avoids hAvoid] at hp₁
      exact hp₁
    rcases picIdem_id3 hsrc hshape hu hyl (hsrckey sel) hxd hsub with ⟨u₂, hu₂, hagree⟩
    refine ⟨runEffects .id3T md rest u₂, ?_, ?_⟩
    · unfold runWriteRules
      dsimp only [applyWriteRule]
      rw [hu₂]
      exact runWriteRules_moveLike htk md hrest u₂
    · intro q
      rw [lookup_runEffects, ← ht₁, lookup_runEffects]
      by_cases hq : keyGroup q = src
      · rw [foldSteps_id_of_avoids hAvoid hq, foldSteps_id_of_avoids hAvoid hq]
        exact hagree q hq
      · have h2 : lookupT q u₂ = lookupT q (dropPhase useless sel t₁) :=
          pictureInRun_preserves_id3 hsrc hshape hu₂ hq
        have h3 : lookupT q u = lookupT q (dropPhase useless sel t) :=
          pictureInRun_preserves_id3 hsrc hshape hu hq
        rw [h2, lookup_dropPhase]
        by_cases hdm : dropMatch useless sel q
        · rw [if_pos hdm, h3, lookup_dropPhase, if_pos hdm]
        · rw [if_neg hdm, ← ht₁, lookup_runEffects, h3, lookup_dropPhase,
            if_neg hdm]
          exact foldSteps_idem .id3T md rest q _

/-- One `export` pass over a plain (MP4/Vorbis) container is idempotent up
to dictionary extensionality. -/
theorem runRulesIdem_plain {md : Metadata} {src : String} {fs : List Filt}
    {rest : List WriteRule} {useless : List (String × List Pat)}
    {sel : List String} {t t₁ : Tags}
    (hsrc : keyGroup src = src)
    (hshape : ∀ c w, applyChain fs c = some w →
      ∃ xs, w = PyVal.list xs ∧ ∀ p ∈ xs, descOf p = Option.none)
    (hrest : ∀ r ∈ rest, r.isMoveLike = true)
    (hAvoid : ∀ r ∈ rest, ∀ k ∈ (ruleEffect .plainT md r).keys, ¬ keyGroup k = src)
    (hsrckey : ∀ s, dropMatch useless s src = false)
    (h1 : runWriteRules .plainT md (.picture src fs :: rest)
      (dropPhase useless sel t) = .ok t₁) :
    ∃ t₂, runWriteRules .plainT md (.picture src fs :: rest)
        (dropPhase useless sel t₁) = .ok t₂
      ∧ ∀ q, lookupT q t₂ = lookupT q t₁ := by
  have htk : TargetKind.plainT ≠ TargetKind.metaT := by decide
  unfold runWriteRules at h1
  dsimp only [applyWriteRule] at h1
  cases hu : pictureInRun .plainT src fs md (dropPhase useless sel t) with
  | error e =>
    rw [hu] at h1
    exact Except.noConfusion h1
  | ok u =>
    rw [hu] at h1
    dsimp only at h1
    rw [runWriteRules_moveLike htk md hrest u] at h1
    have ht₁ : runEffects .plainT md rest u = t₁ := by injection h1
    have hyl : ∀ q, keyGroup q = src → lookupT q (dropPhase useless sel t₁)
        = if dropMatch useless sel q then Option.none else lookupT q u := by
      intro q hq
      rw [lookup_dropPhase]
      by_cases hdm : dropMatch useless sel q
      · rw [if_pos hdm, if_pos hdm]
      · rw [if_neg hdm, if_neg hdm, ← ht₁, lookup_runEffects,
          foldSteps_id_of_avoids hAvoid hq]
    have hxd : ∀ q, keyGroup q = src → dropMatch useless sel q = true →
        lookupT q (dropPhase useless sel t) = Option.none := by
      intro q _ hdm
      rw [lookup_dropPhase, if_pos hdm]
    rcases picIdem_plain hsrc hshape hu hyl (hsrckey sel) hxd with ⟨u₂, hu₂, hagree⟩
    refine ⟨runEffects .plainT md rest u₂, ?_, ?_⟩
    · unfold runWriteRules
      dsimp only [applyWriteRule]
      rw [hu₂]
      exact runWriteRules_moveLike htk md hrest u₂
    · intro q
      rw [lookup_runEffects, ← ht₁, lookup_runEffects]
      by_cases hq : keyGroup q = src
      · rw [foldSteps_id_of_avoids hAvoid hq, foldSteps_id_of_avoids hAvoid hq]
        exact hagree q hq
      · have h2 : lookupT q u₂ = lookupT q (dropPhase useless sel t₁) :=
          pictureInRun_preserves_plain hsrc hu₂ hq
        have h3 : lookupT q u = lookupT q (dropPhase useless sel t) :=
          pictureInRun_preserves_plain hsrc hu hq
        rw [h2, lookup_dropPhase]
        by_cases hdm : dropMatch useless sel q
        · rw [if_pos hdm, h3, lookup_dropPhase, if_pos hdm]
        · rw [if_neg hdm, ← ht₁, lookup_runEffects, h3, lookup_dropPhase,
            if_neg hdm]
          exact foldSteps_idem .plainT md rest q _

theorem mp3_tail_moveLike (decode : List Nat → Option ImgStream) :
    ∀ r ∈ (mp3WriteRules decode).tail, r.isMoveLike = true := by
  intro r hr
  fin_cases hr <;> rfl

theorem mp4_tail_moveLike (decode : List Nat → Option ImgStream) :
    ∀ r ∈ (mp4WriteRules decode).tail, r.isMoveLike = true := by
  intro r hr
  fin_cases hr <;> rfl

theorem ogg_tail_moveLike (decode : List Nat → Option ImgStream) :
    ∀ r ∈ (oggWriteRules decode).tail, r.isMoveLike = true := by
  intro r hr
  fin_cases hr <;> rfl

theorem mp3_srckey : ∀ s, dropMatch mp3Useless s "APIC" = false :=
  fun s => dropMatch_eq_false (by decide) s

theorem mp4_srckey : ∀ s, dropMatch mp4Useless s "covr" = false :=
  fun s => dropMatch_eq_false (by decide) s

theorem ogg_srckey : ∀ s, dropMatch oggUseless s "metadata_block_picture" = false :=
  fun s => dropMatch_eq_false (by decide) s

/-- No move-like MP3 write rule ever writes or erases a key of the `APIC`
namespace: the targets are text-frame ids and the written `HashKey`s are
determined by each chain's final `ID3In`. -/
theorem mp3_avoid (md : Metadata) (decode : List Nat → Option ImgStream) :
    ∀ r ∈ (mp3WriteRules decode).tail,
      ∀ k ∈ (ruleEffect .id3T md r).keys, ¬ keyGroup k = "APIC" := by
  intro r hr
  fin_cases hr
  · intro k hk hkg
    rcases moveEffect_keys_id3 md "album" "TALB" [toStr " " true, toList true]
        "TALB" Option.none k hk with rfl | rfl <;>
      exact absurd hkg (by decide)
  · intro k hk hkg
    rcases moveEffect_keys_id3 md "date" "TDRC" [toInt true true, toStr " " true]
        "TDRC" Option.none k hk with rfl | rfl <;>
      exact absurd hkg (by decide)
  · intro k hk hkg
    rcases moveEffect_keys_id3 md "originaldate" "TDOR"
        [toInt true true, toStr " " true] "TDOR" Option.none k hk with rfl | rfl <;>
      exact absurd hkg (by decide)
  · intro k hk hkg
    rcases moveEffect_keys_id3 md "grouping" "GRP1" [toStr " " true, toList true]
        "GRP1" Option.none k hk with rfl | rfl <;>
      exact absurd hkg (by decide)
  · intro k hk hkg
    rcases moveEffect_keys_id3 md "grouping" "TIT1" [toStr " " true, toList true]
        "TIT1" Option.none k hk with rfl | rfl <;>
      exact absurd hkg (by decide)
  · intro k hk hkg
    rcases moveEffect_keys_id3 md "title" "TIT2" [toStr " " true, toList true]
        "TIT2" Option.none k hk with rfl | rfl <;>
      exact absurd hkg (by decide)
  · intro k hk hkg
    rcases moveEffect_keys_id3 md "artist" "TPE1" [toStr ", " true, toList true]
        "TPE1" Option.none k hk with rfl | rfl <;>
      exact absurd hkg (by decide)
  · intro k hk hkg
    rcases moveEffect_keys_id3 md "albumartist" "TPE2" [toStr ", " true, toList true]
        "TPE2" Option.none k hk with rfl | rfl <;>
      exact absurd hkg (by decide)
  · intro k hk hkg
    rcases moveEffect_keys_id3 md "composer" "TCOM" [toStr ", " true, toList true]
        "TCOM" Option.none k hk with rfl | rfl <;>
      exact absurd hkg (by decide)
  · intro k hk hkg
    rcases moveEffect_keys_id3 md "genre" "TCON" [toStr ", " true, toList true]
        "TCON" Option.none k hk with rfl | rfl <;>
      exact absurd hkg (by decide)
  · intro k hk hkg
    rcases moveEffect_keys_id3 md "label" "TPUB" [toStr " " true, toList true]
        "TPUB" Option.none k hk with rfl | rfl <;>
      exact absurd hkg (by decide)
  · intro k hk hkg
    rcases moveEffect_keys_id3 md "comment" "COMM:description"
        [toStr " " true, toList true] "COMM" (some "description") k hk with rfl | rfl <;>
      exact absurd hkg (by decide)
  · intro k hk hkg
    rcases sortEffect_keys_id3 md "TSOA" [toList true] "TSOA" Option.none k hk
        with rfl | rfl <;>
      exact absurd hkg (by decide)
  · intro k hk hkg
    rcases pair2Effect_keys_id3 md "tracknum" "tracktotal" "TRCK"
        [rStrip, toStr "/" true, toList true] "TRCK" Option.none k hk with rfl | rfl <;>
      exact absurd hkg (by decide)
  · intro k hk hkg
    rcases pair2Effect_keys_id3 md "discnum" "disctotal" "TPOS"
        [rStrip, toStr "/" true, toList true] "TPOS" Option.none k hk with rfl | rfl <;>
      exact absurd hkg (by decide)

/-- No move-like MP4 write rule touches the `covr` atom. -/
theorem mp4_avoid (md : Metadata) (decode : List Nat → Option ImgStream) :
    ∀ r ∈ (mp4WriteRules decode).tail,
      ∀ k ∈ (ruleEffect .plainT md r).keys, ¬ keyGroup k = "covr" := by
  intro r hr
  fin_cases hr <;> intro k hk hkg <;> dsimp only [ruleEffect] at hk <;>
    first
    | (rw [moveEffect_keys_plain md _ _ _ k hk] at hkg; exact absurd hkg (by decide))
    | (rw [sortEffect_keys_plain md _ _ k hk] at hkg; exact absurd hkg (by decide))
    | (rw [pair2Effect_keys_plain md _ _ _ _ k hk] at hkg; exact absurd hkg (by decide))

/-- No move-like Ogg write rule touches the `metadata_block_picture` key. -/
theorem ogg_avoid (md : Metadata) (decode : List Nat → Option ImgStream) :
    ∀ r ∈ (oggWriteRules decode).tail,
      ∀ k ∈ (ruleEffect .plainT md r).keys, ¬ keyGroup k = "metadata_block_picture" := by
  intro r hr
  fin_cases hr <;> intro k hk hkg <;> dsimp only [ruleEffect] at hk <;>
    first
    | (rw [moveEffect_keys_plain md _ _ _ k hk] at hkg; exact absurd hkg (by decide))
    | (rw [sortEffect_keys_plain md _ _ k hk] at hkg; exact absurd hkg (by decide))

/-- C9: for every Metadata record, every supported target container and
every drop-group selection, running the write translation (`export`) twice
with the same Metadata leaves the container in the same state — the same
value under every key — as running it once. -/
theorem export_write_idempotent (decode : List Nat → Option ImgStream)
    (k : AudioKind) (sel : List String) (md : Metadata) (t t₁ : Tags)
    (h : exportRun decode k sel md t = .ok t₁) :
    ∃ t₂, exportRun decode k sel md t₁ = .ok t₂
      ∧ ∀ q, lookupT q t₂ = lookupT q t₁ := by
  cases k with
  | mp3 =>
    exact runRulesIdem_id3 (by decide) (mp3_pic_shape decode)
      (mp3_tail_moveLike decode) (mp3_avoid md decode) mp3_srckey h
  | mp4 =>
    exact runRulesIdem_plain (by decide) (mp4_pic_shape decode)
      (mp4_tail_moveLike decode) (mp4_avoid md decode) mp4_srckey h
  | ogg =>
    exact runRulesIdem_plain (by decide) (ogg_pic_shape decode)
      (ogg_tail_moveLike decode) (ogg_avoid md decode) ogg_srckey h
  | flac => exact Except.noConfusion h
  | wav => exact Except.noConfusion h

theorem export_write_idempotent_witness :
    ∃ t₂, exportRun (fun _ => Option.none) AudioKind.mp3 []
        [("album", PyVal.str "X")] [] = .ok t₂
      ∧ ∀ q, lookupT q t₂ = lookupT q [("TALB", PyVal.frame "TALB"
          (PyVal.list [PyVal.str "X"]) Option.none)] :=
  export_write_idempotent (fun _ => Option.none) AudioKind.mp3 []
    [("album", PyVal.str "X")] []
    [("TALB", PyVal.frame "TALB" (PyVal.list [PyVal.str "X"]) Option.none)] rfl

end Booktag
